import Mathlib

/-!
# Panorama stitcher core (`src/stitch/stitcher.cc`)

A shallow embedding of the geometric part of `Stitcher`: the planar chain
(`build_bundle_linear_simple`), the assumed-topology pair alignment
(`assume_pano_pairwise`), the cylinder-factor search (`calc_matrix_pano`,
`update_h_factor`), the canvas planner and per-pixel inverse map of `blend`, and
`straighten_simple`.

Conventions of the embedding

* `real_t` / `float` values are exact rationals (`ℚ`); `int` values are `Int`.
* Code that can abort or touch memory it does not own returns `Run α`
  (`Except Failure α`); every `vector` access is bounds-checked.
* The collaborators that the stitcher only consumes (feature matching and
  `TransformEstimation::get_transform`, the cylinder warper, the projection
  helpers of the bundle) are parameters of the definitions.
-/

namespace Stitcher

/-! ## Geometry primitives -/

/-- Two-dimensional point (`Vec2D`). -/
@[ext] structure Vec2D where
  x : ℚ
  y : ℚ
deriving DecidableEq

/-- Homogeneous point (`Vec`). -/
@[ext] structure Vec where
  x : ℚ
  y : ℚ
  z : ℚ
deriving DecidableEq

/-- Integer pixel coordinate (`Coor`). -/
@[ext] structure Coor where
  x : Int
  y : Int
deriving DecidableEq

/-- A 3×3 matrix, row-major: `mij` is the entry `at(i, j)`.  `Matrix(3, 3)` and
`Homography` of the source share this representation. -/
@[ext] structure Homography where
  m00 : ℚ
  m01 : ℚ
  m02 : ℚ
  m10 : ℚ
  m11 : ℚ
  m12 : ℚ
  m20 : ℚ
  m21 : ℚ
  m22 : ℚ
deriving DecidableEq

namespace Homography

/-- Modelled from the spec: `Homography::I()` / `Matrix::I(3)` (declared in headers
that are not part of `src/`): the identity. -/
def I : Homography :=
  { m00 := 1, m01 := 0, m02 := 0,
    m10 := 0, m11 := 1, m12 := 0,
    m20 := 0, m21 := 0, m22 := 1 }

/-- Modelled from the spec: `Matrix::prod` (header not in `src/`): `compose(A, B)`,
"apply B then A", the matrix product `A · B`. -/
def prod (a b : Homography) : Homography :=
  { m00 := a.m00 * b.m00 + a.m01 * b.m10 + a.m02 * b.m20,
    m01 := a.m00 * b.m01 + a.m01 * b.m11 + a.m02 * b.m21,
    m02 := a.m00 * b.m02 + a.m01 * b.m12 + a.m02 * b.m22,
    m10 := a.m10 * b.m00 + a.m11 * b.m10 + a.m12 * b.m20,
    m11 := a.m10 * b.m01 + a.m11 * b.m11 + a.m12 * b.m21,
    m12 := a.m10 * b.m02 + a.m11 * b.m12 + a.m12 * b.m22,
    m20 := a.m20 * b.m00 + a.m21 * b.m10 + a.m22 * b.m20,
    m21 := a.m20 * b.m01 + a.m21 * b.m11 + a.m22 * b.m21,
    m22 := a.m20 * b.m02 + a.m21 * b.m12 + a.m22 * b.m22 }

/-- Modelled from the spec: `Homography::trans` (header not in `src/`): the matrix
applied to a homogeneous point. -/
def trans (h : Homography) (v : Vec) : Vec :=
  { x := h.m00 * v.x + h.m01 * v.y + h.m02 * v.z,
    y := h.m10 * v.x + h.m11 * v.y + h.m12 * v.z,
    z := h.m20 * v.x + h.m21 * v.y + h.m22 * v.z }

/-- Modelled from the spec: `Homography::trans_normalize` (header not in `src/`):
`apply` followed by the perspective divide. -/
def trans_normalize (h : Homography) (v : Vec) : Vec2D :=
  { x := (h.trans v).x / (h.trans v).z, y := (h.trans v).y / (h.trans v).z }

/-- Modelled from the spec: `Homography::trans2d(x, y)` (header not in `src/`): the
image of the pixel `(x, y)`, perspective-divided. -/
def trans2d (h : Homography) (x y : ℚ) : Vec2D :=
  h.trans_normalize { x := x, y := y, z := 1 }

/-- Determinant of the 3×3 matrix. -/
def det (h : Homography) : ℚ :=
  h.m00 * (h.m11 * h.m22 - h.m12 * h.m21)
    - h.m01 * (h.m10 * h.m22 - h.m12 * h.m20)
    + h.m02 * (h.m10 * h.m21 - h.m11 * h.m20)

/-- Modelled from the spec: `Homography::inverse()` (header not in `src/`): the
inverse matrix, as adjugate over determinant.  Only meaningful when `det ≠ 0`. -/
def inverse (h : Homography) : Homography :=
  { m00 := (h.m11 * h.m22 - h.m12 * h.m21) / h.det,
    m01 := (h.m02 * h.m21 - h.m01 * h.m22) / h.det,
    m02 := (h.m01 * h.m12 - h.m02 * h.m11) / h.det,
    m10 := (h.m12 * h.m20 - h.m10 * h.m22) / h.det,
    m11 := (h.m00 * h.m22 - h.m02 * h.m20) / h.det,
    m12 := (h.m02 * h.m10 - h.m00 * h.m12) / h.det,
    m20 := (h.m10 * h.m21 - h.m11 * h.m20) / h.det,
    m21 := (h.m01 * h.m20 - h.m00 * h.m21) / h.det,
    m22 := (h.m00 * h.m11 - h.m01 * h.m10) / h.det }

/-- Modelled from the spec: `bool Matrix::inverse(Matrix&)` (header not in `src/`):
reports failure on a singular matrix, otherwise yields the inverse. -/
def inverse? (h : Homography) : Option Homography :=
  if h.det = 0 then none else some h.inverse

instance : Mul Homography := ⟨prod⟩

instance : One Homography := ⟨I⟩

instance : Monoid Homography where
  mul_assoc a b c := by
    show (a.prod b).prod c = a.prod (b.prod c)
    ext <;> simp only [prod] <;> ring
  one_mul a := by
    show I.prod a = a
    ext <;> simp [prod, I]
  mul_one a := by
    show a.prod I = a
    ext <;> simp [prod, I]

end Homography

/-! ## Failures, vectors and loops -/

/-- Ways in which a run of the stitcher ends without a result. -/
inductive Failure
  | error_exit (msg : String)
  | out_of_range (i : Int)
  | absent (a b : Int)
  | assertion
  | length_error
deriving DecidableEq

/-- A computation that either yields a value or fails. -/
abbrev Run (α : Type) := Except Failure α

/-- Read `v[i]` of a `std::vector`; an index outside `[0, size)` is a failure. -/
def vec_get {α : Type} (v : List α) (i : Int) : Run α :=
  if 0 ≤ i then
    match v[i.toNat]? with
    | some a => .ok a
    | none => .error (.out_of_range i)
  else .error (.out_of_range i)

/-- Write `v[i] = a` of a `std::vector`; an index outside `[0, size)` is a failure. -/
def vec_set {α : Type} (v : List α) (i : Int) (a : α) : Run (List α) :=
  if 0 ≤ i ∧ i.toNat < v.length then .ok (v.set i.toNat a)
  else .error (.out_of_range i)

/-- Iterate `body` for `k = a, a + 1, …` for `count` rounds. -/
def loop_up {σ : Type} (body : Int → σ → Run σ) (a : Int) : Nat → σ → Run σ
  | 0, s => .ok s
  | c + 1, s => body a s >>= loop_up body (a + 1) c

/-- Iterate `body` for `k = a, a - 1, …` for `count` rounds. -/
def loop_down {σ : Type} (body : Int → σ → Run σ) (a : Int) : Nat → σ → Run σ
  | 0, s => .ok s
  | c + 1, s => body a s >>= loop_down body (a - 1) c

/-- Modelled from the spec: macro `REPL(k, a, b)` (`lib/utils.hh`, not in `src/`):
`for (k = a; k < b; k++)`. -/
def REPL {σ : Type} (a b : Int) (body : Int → σ → Run σ) (s : σ) : Run σ :=
  loop_up body a (b - a).toNat s

/-- Modelled from the spec: macro `REP(k, n)` (`lib/utils.hh`, not in `src/`):
`for (k = 0; k < n; k++)`. -/
def REP {σ : Type} (n : Int) (body : Int → σ → Run σ) (s : σ) : Run σ :=
  REPL 0 n body s

/-- Modelled from the spec: macro `REPD(k, a, b)` (`lib/utils.hh`, not in `src/`):
`for (k = a; k >= b; k--)`. -/
def REPD {σ : Type} (a b : Int) (body : Int → σ → Run σ) (s : σ) : Run σ :=
  loop_down body a (a - b + 1).toNat s

/-! ## Data model -/

/-- Result of a pairwise fit (`MatchInfo`): `homo` maps the second image of the
pair into the first; `match_` is the inlier list (`match` in the source). -/
structure MatchInfo where
  homo : Homography
  match_ : List (Nat × Nat)
  confidence : ℚ
deriving DecidableEq

/-- The sparse table `pairwise_matches[a][b]`. -/
abbrev Pairwise := Nat → Nat → Option MatchInfo

/-- Read `pairwise_matches[a][b]`; an entry that was never stored is a failure. -/
def pairwise_get (pw : Pairwise) (a b : Int) : Run MatchInfo :=
  if 0 ≤ a ∧ 0 ≤ b then
    match pw a.toNat b.toNat with
    | some m => .ok m
    | none => .error (.absent a b)
  else .error (.absent a b)

/-- The part of `ConnectedImages` that the chaining writes: `identity_idx` and
`component[i].homo`. -/
structure Bundle where
  identity_idx : Int
  component : List Homography

/-! ## Planar chaining -/

/-- `Stitcher::build_bundle_linear_simple` (stitcher.cc 180–203).  `n` is
`imgs.size()`, `dflt` the value of a freshly resized component's `homo`.
`calc_inverse_homo` only fills `homo_inv` and is not part of the model. -/
def build_bundle_linear_simple (n : Nat) (dflt : Homography) (pairwise_matches : Pairwise) :
    Run Bundle := do
  let comp := List.replicate n dflt
  let mid : Int := (n : Int) / 2
  let comp ← vec_set comp mid Homography.I
  -- accumulate the transformations
  let m ← pairwise_get pairwise_matches mid (mid + 1)
  let comp ← vec_set comp (mid + 1) m.homo
  let comp ← REPL (mid + 2) n (fun k comp => do
    let prev ← vec_get comp (k - 1)
    let m ← pairwise_get pairwise_matches k (k - 1)
    vec_set comp k (prev.prod m.homo)) comp
  let m ← pairwise_get pairwise_matches mid (mid - 1)
  let comp ← vec_set comp (mid - 1) m.homo
  let comp ← REPD (mid - 2) 0 (fun k comp => do
    let next ← vec_get comp (k + 1)
    let m ← pairwise_get pairwise_matches k (k + 1)
    vec_set comp k (next.prod m.homo)) comp
  return { identity_idx := mid, component := comp }

/-- Translation by `(dx, dy)` as a homography. -/
def translation (dx dy : ℚ) : Homography :=
  { m00 := 1, m01 := 0, m02 := dx,
    m10 := 0, m11 := 1, m12 := dy,
    m20 := 0, m21 := 0, m22 := 1 }

/-- A sweep in which every image is shifted by `dx` against its left neighbour:
`pairwise[k][k+1]` is the translation by `dx`, `pairwise[k+1][k]` its inverse, for
the consecutive pairs below `n`; nothing else is stored. -/
def sweep_table (n : Nat) (dx : ℚ) : Pairwise := fun a b =>
  if b = a + 1 ∧ b < n then some { homo := translation dx 0, match_ := [], confidence := 1 }
  else if a = b + 1 ∧ a < n then
    some { homo := translation (-dx) 0, match_ := [], confidence := 1 }
  else none

/-! ## Pair alignment with assumed topology -/

/-- The pair graph: adjacency lists `graph[i]` and the table `pairwise_matches`. -/
structure PairGraph where
  graph : Nat → List Nat
  pairwise_matches : Pairwise

/-- The state before alignment: no edge, no stored pair. -/
def PairGraph.empty : PairGraph :=
  { graph := fun _ => [], pairwise_matches := fun _ _ => none }

/-- `graph[a].push_back(b)`. -/
def graph_push (g : Nat → List Nat) (a b : Nat) : Nat → List Nat :=
  fun x => if x = a then g x ++ [b] else g x

/-- `pairwise_matches[a][b] = m`. -/
def table_set (pw : Pairwise) (a b : Nat) (m : MatchInfo) : Pairwise :=
  fun x y => if x = a ∧ y = b then some m else pw x y

/-- The text `ssprintf("Image %d and %d doesn't match.\n", i, next)`. -/
def pair_message (i next : Int) : String :=
  "Image " ++ toString i ++ " and " ++ toString next ++ " doesn't match.\n"

/-- `Stitcher::assume_pano_pairwise` (stitcher.cc 74–94).  `fit i j` stands for
`FeatureMatcher(feats[i], feats[j]).match()` followed by
`TransformEstimation::get_transform`; `none` is `succ == false`. -/
def assume_pano_pairwise (n : Nat) (fit : Nat → Nat → Option MatchInfo) (s : PairGraph) :
    Run PairGraph :=
  REP n (fun i s =>
    let next : Int := (i + 1) % n
    match fit i.toNat next.toNat with
    | none => .error (.error_exit (pair_message i next))
    | some info =>
      let graph := graph_push s.graph i.toNat next.toNat
      let graph := graph_push graph next.toNat i.toNat
      let pw := table_set s.pairwise_matches i.toNat next.toNat info
      let info := { info with homo := info.homo.inverse }
      let pw := table_set pw next.toNat i.toNat info
      .ok { graph := graph, pairwise_matches := pw }) s

/-! ## Cylinder-factor search -/

/-- The fit on cylinder-warped features: `warped_fit f a b` stands for
`TransformEstimation(matches of the pair, feats[a], feats[b]).get_transform` after
both feature lists were warped by `CylinderWarper(f)`; `none` is `succ == false`. -/
abbrev WarpedFit := ℚ → Nat → Nat → Option Homography

/-- The text of the fatal error raised when a warped pair does not fit. -/
def no_match_message : String := "The two image doesn't match. Failed"

/-- The values that `update_h_factor` updates through references: `minslope`,
`bestfactor` and `mat` (`bestmat` of the caller). -/
structure Search where
  minslope : ℚ
  bestfactor : ℚ
  mat : List Homography

/-- The constant `numeric_limits<float>::max()`. -/
def FLT_MAX : ℚ := (2 ^ 24 - 1) * 2 ^ 104

/-- Modelled from the spec: `update_min(dest, val)` (`lib/utils.hh`, not in
`src/`): if `val < dest`, store `val` in `dest` and report `true`. -/
def update_min (dest val : ℚ) : Bool × ℚ :=
  if val < dest then (true, val) else (false, dest)

/-- Lines 276–299 of `update_h_factor`: fit the consecutive pairs of the right half
`mid … n-1` on features warped with `nowfactor`, then turn `nowmat` into the chain
of transforms into `imgs[mid]`. -/
def chain_right (fit : WarpedFit) (n : Nat) (mid : Int) (nowfactor : ℚ) :
    Run (List Homography) := do
  let len : Int := (n : Int) - mid
  let nowmat ← REPL 1 len (fun k nowmat =>
    match fit nowfactor (k - 1 + mid).toNat (k + mid).toNat with
    | none => .error (.error_exit no_match_message)
    | some h => .ok (nowmat ++ [h])) []
  REPL 1 (len - 1) (fun k nowmat => do
    let a ← vec_get nowmat (k - 1)
    let b ← vec_get nowmat k
    vec_set nowmat k (a.prod b)) nowmat

/-- Lines 301–302 of `update_h_factor`: `center2 = nowmat.back().trans2d(0, 0)` and
`slope = center2.y / center2.x`. -/
def slope_of (nowmat : List Homography) : Run ℚ := do
  let last ← vec_get nowmat ((nowmat.length : Int) - 1)
  let center2 := last.trans2d 0 0
  return center2.y / center2.x

/-- `Stitcher::update_h_factor` (stitcher.cc 268–309); returns the slope together
with the updated references. -/
def update_h_factor (fit : WarpedFit) (n : Nat) (mid : Int) (nowfactor : ℚ) (s : Search) :
    Run (ℚ × Search) := do
  let nowmat ← chain_right fit n mid nowfactor
  let slope ← slope_of nowmat
  let (updated, minslope) := update_min s.minslope |slope|
  if updated then
    return (slope, { minslope := minslope, bestfactor := nowfactor, mat := nowmat })
  else
    return (slope, { s with minslope := minslope })

/-- The loop `REP(k, 3)` of `calc_matrix_pano` (lines 241–245), from round `k` with
`rounds` rounds left.  Besides the outcome it reports the factors at which
`update_h_factor` was called, in order. -/
def refine_factor (fit : WarpedFit) (n : Nat) (mid : Int) (SLOPE_PLAIN order : ℚ) :
    Nat → Nat → ℚ → ℚ → Search → List ℚ × Run Search
  | _, 0, _, _, s => ([], .ok s)
  | k, rounds + 1, newfactor, slope, s =>
    if |slope| < SLOPE_PLAIN then ([], .ok s)
    else
      let newfactor := newfactor + (if slope < 0 then order else -order) / (5 * 2 ^ k)
      match update_h_factor fit n mid newfactor s with
      | .error e => ([newfactor], .error e)
      | .ok (slope, s) =>
        let rest := refine_factor fit n mid SLOPE_PLAIN order (k + 1) rounds newfactor slope s
        (newfactor :: rest.1, rest.2)

/-- Lines 229–246 of `calc_matrix_pano`: the search for the focal factor.  The
first component lists the factors at which `update_h_factor` was called. -/
def factor_search (fit : WarpedFit) (SLOPE_PLAIN : ℚ) (n : Nat) (mid : Int) :
    List ℚ × Run Search :=
  let s : Search := { minslope := FLT_MAX, bestfactor := 1, mat := [] }
  if (n : Int) - mid > 1 then
    let newfactor : ℚ := 1
    match update_h_factor fit n mid newfactor s with
    | .error e => ([newfactor], .error e)
    | .ok (slope, s) =>
      match s.mat with
      | [] => ([newfactor], .error (.error_exit "Failed to find hfactor"))
      | first :: _ =>
        let centerx1 : ℚ := 0
        let centerx2 := (first.trans2d 0 0).x
        let order : ℚ := if centerx2 > centerx1 then 1 else -1
        let rest := refine_factor fit n mid SLOPE_PLAIN order 0 3 newfactor slope s
        (newfactor :: rest.1, rest.2)
  else ([], .ok s)

/-- What `calc_matrix_pano` leaves behind: the bundle, and the `bestfactor` and
`bestmat` that the search chose (before `bestmat` is moved into the bundle). -/
structure PanoResult where
  bundle : Bundle
  bestfactor : ℚ
  bestmat : List Homography

/-- Lines 251–264 of `calc_matrix_pano`: fill the right half from `bestmat`, fit and
chain the left half on the features warped with `bestfactor`. -/
def accumulate (fit : WarpedFit) (n : Nat) (mid : Int) (bestfactor : ℚ)
    (bestmat comp : List Homography) : Run (List Homography) := do
  let comp ← REPL (mid + 1) n (fun k comp => do
    let h ← vec_get bestmat (k - mid - 1)
    vec_set comp k h) comp
  let comp ← REPD (mid - 1) 0 (fun i comp =>
    match fit bestfactor (i + 1).toNat i.toNat with
    | none => .error (.error_exit no_match_message)
    | some h => vec_set comp i h) comp
  REPD (mid - 2) 0 (fun i comp => do
    let a ← vec_get comp (i + 1)
    let b ← vec_get comp i
    vec_set comp i (a.prod b)) comp

/-- `Stitcher::calc_matrix_pano` (stitcher.cc 214–265).  `n` is `imgs.size()`,
`component` the vector `bundle.component` on entry.  The first component of the
result lists the factors at which `update_h_factor` was called. -/
def calc_matrix_pano (fit : WarpedFit) (SLOPE_PLAIN : ℚ) (n : Nat)
    (component : List Homography) : List ℚ × Run PanoResult :=
  let mid : Int := (n : Int) / 2
  match REP n (fun i comp => vec_set comp i Homography.I) component with
  | .error e => ([], .error e)
  | .ok comp =>
    -- `matches.resize(n - 1)`
    if n = 0 then ([], .error .length_error)
    else
      let found := factor_search fit SLOPE_PLAIN n mid
      (found.1, do
        let s ← found.2
        let comp ← accumulate fit n mid s.bestfactor s.mat comp
        return { bundle := { identity_idx := mid, component := comp },
                 bestfactor := s.bestfactor, bestmat := s.mat })

/-- `Stitcher::build_bundle_warp` (stitcher.cc 205–211); `calc_inverse_homo` only
fills `homo_inv` and is not part of the model. -/
def build_bundle_warp (fit : WarpedFit) (SLOPE_PLAIN : ℚ) (n : Nat) (dflt : Homography) :
    List ℚ × Run PanoResult :=
  calc_matrix_pano fit SLOPE_PLAIN n (List.replicate n dflt)

/-! ## Straightening -/

/-- The shear `S` of `straighten_simple`: `Matrix::I(3)` with `S.at(1, 0) = dydx`. -/
def shear (dydx : ℚ) : Homography :=
  { Homography.I with m10 := dydx }

/-- `Stitcher::straighten_simple` (stitcher.cc 166–177) on the vector of
`component[i].homo`; `n` is `imgs.size()`. -/
def straighten_simple (n : Nat) (component : List Homography) : Run (List Homography) := do
  let last ← vec_get component ((n : Int) - 1)
  let center2 := last.trans2d 0 0
  let first ← vec_get component 0
  let center1 := first.trans2d 0 0
  let dydx := (center2.y - center1.y) / (center2.x - center1.x)
  let S := shear dydx
  match S.inverse? with
  | none => .error .assertion
  | some Sinv =>
    REP n (fun i comp => do
      let h ← vec_get comp i
      vec_set comp i (Sinv.prod h)) component

/-! ## Canvas planning and the inverse map of the renderer -/

/-- Conversion of a `real_t` to `int` (truncation towards zero), as done by the
constructor `Coor(real_t, real_t)`. -/
def to_int (q : ℚ) : Int :=
  if 0 ≤ q then ⌊q⌋ else ⌈q⌉

/-- The values computed at the start of `blend` (lines 98–116). -/
structure Plan where
  id_img_range : Vec2D
  proj_min : Vec2D
  x_per_pixel : ℚ
  y_per_pixel : ℚ
  size : Coor

/-- The lambda `scale_coor_to_img_coor` of `blend` (lines 119–123). -/
def scale_coor_to_img_coor (p : Plan) (v : Vec2D) : Coor :=
  { x := to_int ((v.x - p.proj_min.x) / p.x_per_pixel),
    y := to_int ((v.y - p.proj_min.y) / p.y_per_pixel) }

/-- The body of the pixel loop of `blend` (lines 138–147): the entry
`orig_pos.at(i, j)` for a component with inverse transform `homo_inv` and a source
image of `width × height` pixels.  `none` is `Vec2D::NaN()`; a perspective divide by
zero has no finite value and is stored as NaN as well. -/
def orig_pos_at (proj2homo : Vec2D → Vec) (refw refh : Int) (p : Plan) (top_left : Coor)
    (homo_inv : Homography) (width height : Int) (i j : Int) : Option Vec2D :=
  let c : Vec2D :=
    { x := ((j + top_left.x : Int) : ℚ) * p.x_per_pixel + p.proj_min.x,
      y := ((i + top_left.y : Int) : ℚ) * p.y_per_pixel + p.proj_min.y }
  let homo := proj2homo { x := c.x / refw, y := c.y / refh }
  -- shift center for homography
  let homo : Vec := { homo with x := homo.x - (1 / 2) * homo.z, y := homo.y - (1 / 2) * homo.z }
  let homo : Vec := { homo with x := homo.x * refw, y := homo.y * refh }
  if (homo_inv.trans homo).z = 0 then none
  else
    let q := homo_inv.trans_normalize homo
    let pt : Vec2D :=
      { x := q.x + ((Int.tdiv width 2 : Int) : ℚ), y := q.y + ((Int.tdiv height 2 : Int) : ℚ) }
    if pt.x < 0 ∨ pt.x ≥ width ∨ pt.y < 0 ∨ pt.y ≥ height then none else some pt

/-! ## Reference statements and sample inputs -/

/-- The symmetry invariant of the pair graph: an edge is listed exactly when its
pair is stored, and a stored pair has an invertible transform whose reverse pair is
stored with the inverse transform and the same inliers and confidence. -/
def PairInv (s : PairGraph) : Prop :=
  (∀ a b, b ∈ s.graph a ↔ (s.pairwise_matches a b).isSome = true) ∧
  (∀ a b m, s.pairwise_matches a b = some m → m.homo.det ≠ 0 ∧
    ∃ m', s.pairwise_matches b a = some m' ∧ m'.homo = m.homo.inverse ∧
      m'.match_ = m.match_ ∧ m'.confidence = m.confidence)

/-- The inverse map as the specification words it: like `orig_pos_at`, but the
offset added after the perspective divide is the exact half `(W / 2, H / 2)` of the
source image size. -/
def orig_pos_exact (proj2homo : Vec2D → Vec) (refw refh : Int) (p : Plan) (top_left : Coor)
    (homo_inv : Homography) (width height : Int) (i j : Int) : Option Vec2D :=
  let c : Vec2D :=
    { x := ((j + top_left.x : Int) : ℚ) * p.x_per_pixel + p.proj_min.x,
      y := ((i + top_left.y : Int) : ℚ) * p.y_per_pixel + p.proj_min.y }
  let h := proj2homo { x := c.x / refw, y := c.y / refh }
  let q := homo_inv.trans_normalize
    { x := (h.x - (1 / 2) * h.z) * refw, y := (h.y - (1 / 2) * h.z) * refh, z := h.z }
  let pt : Vec2D := { x := q.x + (width : ℚ) / 2, y := q.y + (height : ℚ) / 2 }
  if pt.x < 0 ∨ pt.x ≥ width ∨ pt.y < 0 ∨ pt.y ≥ height then none else some pt

/-- The inverse of the flat projection: `(x, y) ↦ (x, y, 1)`. -/
def flat_proj2homo : Vec2D → Vec := fun v => { x := v.x, y := v.y, z := 1 }

/-- The plan of a canvas that shows one 101 × 101 image at scale one. -/
def unit_plan : Plan :=
  { id_img_range := ⟨101, 101⟩, proj_min := ⟨0, 0⟩, x_per_pixel := 1, y_per_pixel := 1,
    size := ⟨101, 101⟩ }

/-- A pairwise table that stores the identity for every ordered pair. -/
def full_table : Pairwise := fun _ _ => some { homo := Homography.I, match_ := [], confidence := 1 }

/-- A warped fit that rejects every pair. -/
def no_fit : WarpedFit := fun _ _ _ => none

/-- The slope that `update_h_factor` computes at the factor `g`. -/
def eval_slope (fit : WarpedFit) (n : Nat) (mid : Int) (g : ℚ) : Run ℚ :=
  chain_right fit n mid g >>= slope_of

/-- The largest distance that `rounds` further steps can cover from round `k` on. -/
def step_budget : Nat → Nat → ℚ
  | _, 0 => 0
  | k, rounds + 1 => 1 / (5 * 2 ^ k) + step_budget (k + 1) rounds

/-- What the search knows about its best candidate after the factors `tr`: it is one
of them, `mat` is the chain computed at it, and `minslope` is the least `|slope|`
among them. -/
def BestOf (fit : WarpedFit) (n : Nat) (mid : Int) (tr : List ℚ) (s : Search) : Prop :=
  s.bestfactor ∈ tr ∧ chain_right fit n mid s.bestfactor = .ok s.mat ∧
  ∃ sb, eval_slope fit n mid s.bestfactor = .ok sb ∧ s.minslope = |sb| ∧
    ∀ g ∈ tr, ∃ sg, eval_slope fit n mid g = .ok sg ∧ |sb| ≤ |sg|

/-- A warped fit of a level sweep: whatever the factor, each image lies 10 pixels to
the right of its left neighbour. -/
def level_fit : WarpedFit := fun _ a b =>
  if b = a + 1 then some (translation 10 0)
  else if a = b + 1 then some (translation (-10) 0)
  else none

/-- What `calc_matrix_pano` leaves behind on a level sweep of three images. -/
def level_result : PanoResult :=
  { bundle := { identity_idx := 1,
                component := [translation (-10) 0, Homography.I, translation 10 0] },
    bestfactor := 1, bestmat := [translation 10 0] }

/-! ## Algebra of 3×3 matrices -/

namespace Homography

theorem mul_def (a b : Homography) : a * b = a.prod b := rfl

theorem one_def : (1 : Homography) = I := rfl

theorem prod_assoc (a b c : Homography) : (a.prod b).prod c = a.prod (b.prod c) :=
  mul_assoc a b c

theorem I_prod (a : Homography) : I.prod a = a := one_mul a

theorem prod_I (a : Homography) : a.prod I = a := mul_one a

theorem det_prod (a b : Homography) : (a.prod b).det = a.det * b.det := by
  simp only [det, prod]; ring

theorem det_I : I.det = 1 := by
  simp [det, I]

theorem prod_inverse (h : Homography) (hd : h.det ≠ 0) : h.prod h.inverse = I := by
  have hd2 : h.m00 * (h.m11 * h.m22 - h.m12 * h.m21)
    - h.m01 * (h.m10 * h.m22 - h.m12 * h.m20)
    + h.m02 * (h.m10 * h.m21 - h.m11 * h.m20) ≠ 0 := hd
  ext <;> simp only [prod, inverse, I, det] <;> field_simp <;> ring

theorem inverse_prod (h : Homography) (hd : h.det ≠ 0) : h.inverse.prod h = I := by
  have hd2 : h.m00 * (h.m11 * h.m22 - h.m12 * h.m21)
    - h.m01 * (h.m10 * h.m22 - h.m12 * h.m20)
    + h.m02 * (h.m10 * h.m21 - h.m11 * h.m20) ≠ 0 := hd
  ext <;> simp only [prod, inverse, I, det] <;> field_simp <;> ring

theorem det_inverse_ne_zero (h : Homography) (hd : h.det ≠ 0) : h.inverse.det ≠ 0 := by
  intro h0
  have := det_prod h h.inverse
  rw [prod_inverse h hd, det_I, h0, mul_zero] at this
  exact one_ne_zero this

theorem inverse_inverse (h : Homography) (hd : h.det ≠ 0) : h.inverse.inverse = h := by
  have h1 := inverse_prod h.inverse (det_inverse_ne_zero h hd)
  calc h.inverse.inverse = h.inverse.inverse.prod I := (prod_I _).symm
    _ = h.inverse.inverse.prod (h.inverse.prod h) := by rw [inverse_prod h hd]
    _ = (h.inverse.inverse.prod h.inverse).prod h := (prod_assoc _ _ _).symm
    _ = I.prod h := by rw [h1]
    _ = h := I_prod h

end Homography

/-! ## Loops and vectors -/

theorem loop_up_total {σ : Type} (body : Int → σ → Run σ) (P : Int → σ → Prop) (c : Nat) :
    ∀ (a : Int) (s : σ), P a s →
      (∀ k s, a ≤ k → k < a + c → P k s → ∃ s', body k s = .ok s' ∧ P (k + 1) s') →
      ∃ s', loop_up body a c s = .ok s' ∧ P (a + c) s' := by
  induction c with
  | zero => intro a s h _; exact ⟨s, rfl, by simpa using h⟩
  | succ c ih =>
    intro a s h step
    obtain ⟨s1, hb, h1⟩ := step a s le_rfl (by push_cast; omega) h
    obtain ⟨s2, hl, h2⟩ := ih (a + 1) s1 h1 (fun k t hk hk2 hp =>
      step k t (by omega) (by push_cast; omega) hp)
    refine ⟨s2, ?_, ?_⟩
    · simp only [loop_up, hb]; exact hl
    · have e : a + ((c + 1 : Nat) : Int) = a + 1 + (c : Int) := by push_cast; ring
      rw [e]; exact h2

theorem loop_up_partial {σ : Type} (body : Int → σ → Run σ) (P : Int → σ → Prop) (c : Nat) :
    ∀ (a : Int) (s s' : σ), P a s →
      (∀ k s s', a ≤ k → k < a + c → P k s → body k s = .ok s' → P (k + 1) s') →
      loop_up body a c s = .ok s' → P (a + c) s' := by
  induction c with
  | zero =>
    intro a s s' h _ hl
    simp only [loop_up, Except.ok.injEq] at hl
    subst hl; simpa using h
  | succ c ih =>
    intro a s s' h step hl
    simp only [loop_up] at hl
    cases hb : body a s with
    | error e => rw [hb] at hl; cases hl
    | ok s1 =>
      rw [hb] at hl
      have h1 := step a s s1 le_rfl (by push_cast; omega) h hb
      have h2 := ih (a + 1) s1 s' h1 (fun k t t' hk hk2 hp hb' =>
        step k t t' (by omega) (by push_cast; omega) hp hb') hl
      have e : a + ((c + 1 : Nat) : Int) = a + 1 + (c : Int) := by push_cast; ring
      rw [e]; exact h2

theorem loop_down_total {σ : Type} (body : Int → σ → Run σ) (P : Int → σ → Prop) (c : Nat) :
    ∀ (a : Int) (s : σ), P a s →
      (∀ k s, k ≤ a → a - c < k → P k s → ∃ s', body k s = .ok s' ∧ P (k - 1) s') →
      ∃ s', loop_down body a c s = .ok s' ∧ P (a - c) s' := by
  induction c with
  | zero => intro a s h _; exact ⟨s, rfl, by simpa using h⟩
  | succ c ih =>
    intro a s h step
    obtain ⟨s1, hb, h1⟩ := step a s le_rfl (by push_cast; omega) h
    obtain ⟨s2, hl, h2⟩ := ih (a - 1) s1 h1 (fun k t hk hk2 hp =>
      step k t (by omega) (by push_cast; omega) hp)
    refine ⟨s2, ?_, ?_⟩
    · simp only [loop_down, hb]; exact hl
    · have e : a - ((c + 1 : Nat) : Int) = a - 1 - (c : Int) := by push_cast; ring
      rw [e]; exact h2

theorem loop_down_partial {σ : Type} (body : Int → σ → Run σ) (P : Int → σ → Prop) (c : Nat) :
    ∀ (a : Int) (s s' : σ), P a s →
      (∀ k s s', k ≤ a → a - c < k → P k s → body k s = .ok s' → P (k - 1) s') →
      loop_down body a c s = .ok s' → P (a - c) s' := by
  induction c with
  | zero =>
    intro a s s' h _ hl
    simp only [loop_down, Except.ok.injEq] at hl
    subst hl; simpa using h
  | succ c ih =>
    intro a s s' h step hl
    simp only [loop_down] at hl
    cases hb : body a s with
    | error e => rw [hb] at hl; cases hl
    | ok s1 =>
      rw [hb] at hl
      have h1 := step a s s1 le_rfl (by push_cast; omega) h hb
      have h2 := ih (a - 1) s1 s' h1 (fun k t t' hk hk2 hp hb' =>
        step k t t' (by omega) (by push_cast; omega) hp hb') hl
      have e : a - ((c + 1 : Nat) : Int) = a - 1 - (c : Int) := by push_cast; ring
      rw [e]; exact h2

/-! ## Vector accesses -/

theorem vec_get_ok {α : Type} (v : List α) (i : Nat) (a : α) (h : v[i]? = some a) :
    vec_get v (i : Int) = .ok a := by
  simp [vec_get, h]

theorem vec_set_ok {α : Type} (v : List α) (i : Nat) (a : α) (h : i < v.length) :
    vec_set v (i : Int) a = .ok (v.set i a) := by
  simp [vec_set, h]

theorem vec_get_inv {α : Type} (v : List α) (i : Int) (a : α) (h : vec_get v i = .ok a) :
    0 ≤ i ∧ v[i.toNat]? = some a := by
  unfold vec_get at h
  split_ifs at h with h0
  refine ⟨h0, ?_⟩
  cases hv : v[i.toNat]? with
  | none => rw [hv] at h; cases h
  | some b => rw [hv] at h; simp only [Except.ok.injEq] at h; rw [h]

theorem vec_set_inv {α : Type} (v w : List α) (i : Int) (a : α) (h : vec_set v i a = .ok w) :
    0 ≤ i ∧ i.toNat < v.length ∧ w = v.set i.toNat a := by
  unfold vec_set at h
  split_ifs at h with h0
  simp only [Except.ok.injEq] at h
  exact ⟨h0.1, h0.2, h.symm⟩

/-- A loop that rewrites every slot of a vector in place computes `List.map`. -/
theorem REP_map_in_place (f : Homography → Homography) (l : List Homography) :
    REP (l.length : Int) (fun i comp => do
      let h ← vec_get comp i
      vec_set comp i (f h)) l = .ok (l.map f) := by
  obtain ⟨s', hs, hlen, hP⟩ := loop_up_total
    (fun i comp => do
      let h ← vec_get comp i
      vec_set comp i (f h))
    (fun k (s : List Homography) => s.length = l.length ∧
      ∀ j : Nat, (((j : Int) < k → s[j]? = (l[j]?).map f) ∧ (k ≤ (j : Int) → s[j]? = l[j]?)))
    l.length 0 l ⟨rfl, fun j => ⟨fun h => by omega, fun _ => rfl⟩⟩
    (by
      intro k s hk0 hk1 ⟨hlen, hP⟩
      lift k to ℕ using hk0
      have hk : k < l.length := by omega
      have hget : s[k]? = some (l[k]) := by
        rw [(hP k).2 le_rfl]; exact List.getElem?_eq_getElem hk
      refine ⟨s.set k (f l[k]), ?_, ?_, ?_⟩
      · show (vec_get s (k : Int) >>= fun h => vec_set s (k : Int) (f h)) = _
        rw [vec_get_ok s k _ hget]
        exact vec_set_ok s k _ (by omega)
      · simp [hlen]
      · intro j
        rw [List.getElem?_set]
        constructor
        · intro hj
          by_cases e : k = j
          · subst e; simp [hlen, hk]
          · simp only [e, if_false]; exact (hP j).1 (by omega)
        · intro hj
          have e : k ≠ j := by omega
          simp only [e, if_false]; exact (hP j).2 (by omega))
  have : s' = l.map f := by
    apply List.ext_getElem?
    intro j
    rw [List.getElem?_map]
    by_cases hj : j < l.length
    · exact (hP j).1 (by omega)
    · rw [List.getElem?_eq_none (by omega), List.getElem?_eq_none (by omega)]; rfl
  rw [← this]
  simpa [REP, REPL] using hs

theorem shear_inverse (d : ℚ) :
    (shear d).inverse? = some (shear (-d)) ∧ (shear d).prod (shear (-d)) = Homography.I ∧
      (shear (-d)).prod (shear d) = Homography.I := by
  refine ⟨?_, ?_, ?_⟩
  · have hd : (shear d).det = 1 := by simp [shear, Homography.det, Homography.I]
    simp only [Homography.inverse?, hd, one_ne_zero, if_false, Option.some.injEq]
    ext <;> simp [Homography.inverse, hd] <;> simp [shear, Homography.I]
  · ext <;> simp [shear, Homography.prod, Homography.I]
  · ext <;> simp [shear, Homography.prod, Homography.I]

theorem sheared_center_y (d : ℚ) (h : Homography) :
    (((shear (-d)).prod h).trans2d 0 0).y = (h.trans2d 0 0).y - d * (h.trans2d 0 0).x := by
  simp [shear, Homography.prod, Homography.trans2d, Homography.trans_normalize,
    Homography.trans, Homography.I]
  ring

/-- C8. `straighten_simple` levels the sweep: when the centres of the first and the
last image have different `x`, the shear `S` with `S[1][0] = dy/dx` is invertible (the
assertion holds), every `homo` becomes `S⁻¹ · homo`, and afterwards the centres of the
first and the last image have the same `y`, so they differ by less than one pixel. -/
theorem straighten_simple_levels (n : Nat) (component : List Homography)
    (first last : Homography) (hn : 2 ≤ n) (hlen : component.length = n)
    (hfirst : component[0]? = some first) (hlast : component[n - 1]? = some last)
    (hx : (first.trans2d 0 0).x ≠ (last.trans2d 0 0).x) :
    ∃ S Sinv out first' last',
      S = shear (((last.trans2d 0 0).y - (first.trans2d 0 0).y)
        / ((last.trans2d 0 0).x - (first.trans2d 0 0).x)) ∧
      S.inverse? = some Sinv ∧ S.prod Sinv = Homography.I ∧ Sinv.prod S = Homography.I ∧
      straighten_simple n component = .ok out ∧
      out = component.map (fun h => Sinv.prod h) ∧
      out[0]? = some first' ∧ out[n - 1]? = some last' ∧
      (first'.trans2d 0 0).y = (last'.trans2d 0 0).y ∧
      |(first'.trans2d 0 0).y - (last'.trans2d 0 0).y| < 1 := by
  obtain ⟨hi, hp1, hp2⟩ := shear_inverse (((last.trans2d 0 0).y - (first.trans2d 0 0).y)
        / ((last.trans2d 0 0).x - (first.trans2d 0 0).x))
  have hy : (((shear (-(((last.trans2d 0 0).y - (first.trans2d 0 0).y)
        / ((last.trans2d 0 0).x - (first.trans2d 0 0).x)))).prod first).trans2d 0 0).y
      = (((shear (-(((last.trans2d 0 0).y - (first.trans2d 0 0).y)
        / ((last.trans2d 0 0).x - (first.trans2d 0 0).x)))).prod last).trans2d 0 0).y := by
    rw [sheared_center_y, sheared_center_y]
    have hx' : (last.trans2d 0 0).x - (first.trans2d 0 0).x ≠ 0 := fun e => hx (by linarith)
    field_simp
    ring
  refine ⟨_, _, _, _, _, rfl, hi, hp1, hp2, ?_, rfl, ?_, ?_, hy, ?_⟩
  · have hl' : vec_get component ((n : Int) - 1) = .ok last := by
      have := vec_get_ok component (n - 1) last hlast
      have e : ((n - 1 : Nat) : Int) = (n : Int) - 1 := by omega
      rwa [e] at this
    have hf' : vec_get component 0 = .ok first := vec_get_ok component 0 first hfirst
    have hm := REP_map_in_place (fun h => (shear (-(((last.trans2d 0 0).y - (first.trans2d 0 0).y)
        / ((last.trans2d 0 0).x - (first.trans2d 0 0).x)))).prod h) component
    rw [hlen] at hm
    simp only [straighten_simple, hl', hf', hi, bind, Except.bind]
    exact hm
  · simp [List.getElem?_map, hfirst]
  · simp [List.getElem?_map, hlast]
  · rw [hy]; simp


/-- C8 on a three-image sweep that drifts upwards by 7 pixels over 10. -/
theorem straighten_simple_levels_witness :
    2 ≤ 3 ∧
    ((translation 0 0).trans2d 0 0).x ≠ ((translation 10 7).trans2d 0 0).x ∧
    ∃ S Sinv out first' last',
      S = shear ((((translation 10 7).trans2d 0 0).y - ((translation 0 0).trans2d 0 0).y)
        / (((translation 10 7).trans2d 0 0).x - ((translation 0 0).trans2d 0 0).x)) ∧
      S.inverse? = some Sinv ∧ S.prod Sinv = Homography.I ∧ Sinv.prod S = Homography.I ∧
      straighten_simple 3 [translation 0 0, translation 5 3, translation 10 7] = .ok out ∧
      out = [translation 0 0, translation 5 3, translation 10 7].map (fun h => Sinv.prod h) ∧
      out[0]? = some first' ∧ out[3 - 1]? = some last' ∧
      (first'.trans2d 0 0).y = (last'.trans2d 0 0).y ∧
      |(first'.trans2d 0 0).y - (last'.trans2d 0 0).y| < 1 :=
  ⟨by decide,
    by simp [translation, Homography.trans2d, Homography.trans_normalize, Homography.trans],
    straighten_simple_levels 3 [translation 0 0, translation 5 3, translation 10 7]
      (translation 0 0) (translation 10 7) (by decide) rfl rfl rfl
      (by simp [translation, Homography.trans2d, Homography.trans_normalize,
        Homography.trans])⟩

/-! ## Graph symmetry -/

theorem PairInv_empty : PairInv PairGraph.empty := by
  constructor
  · intro a b; simp [PairGraph.empty]
  · intro a b m h; simp [PairGraph.empty] at h

theorem PairInv_step (s : PairGraph) (i nx : Nat) (info : MatchInfo) (hne : i ≠ nx)
    (hd : info.homo.det ≠ 0) (hs : PairInv s) :
    PairInv
      { graph := graph_push (graph_push s.graph i nx) nx i,
        pairwise_matches := table_set (table_set s.pairwise_matches i nx info) nx i
          { info with homo := info.homo.inverse } } := by
  obtain ⟨hg, hp⟩ := hs
  constructor
  · intro a b
    have := hg a b
    simp only [graph_push, table_set]
    by_cases h1 : a = nx <;> by_cases h2 : a = i <;> by_cases h3 : b = i <;> by_cases h4 : b = nx <;>
      simp_all
  · intro a b m hm
    simp only [table_set] at hm ⊢
    by_cases h1 : a = nx ∧ b = i
    · obtain ⟨rfl, rfl⟩ := h1
      simp only [and_self, if_true, Option.some.injEq] at hm
      subst hm
      refine ⟨Homography.det_inverse_ne_zero _ hd, info, ?_, ?_, rfl, rfl⟩
      · simp [hne]
      · exact (Homography.inverse_inverse _ hd).symm
    · rw [if_neg h1] at hm
      by_cases h2 : a = i ∧ b = nx
      · obtain ⟨rfl, rfl⟩ := h2
        simp only [and_self, if_true, Option.some.injEq] at hm
        subst hm
        exact ⟨hd, { info with homo := info.homo.inverse }, by simp, rfl, rfl, rfl⟩
      · rw [if_neg h2] at hm
        obtain ⟨hdm, m', hm', e⟩ := hp a b m hm
        refine ⟨hdm, m', ?_, e⟩
        have h3 : ¬ (b = nx ∧ a = i) := fun h => h2 ⟨h.2, h.1⟩
        have h4 : ¬ (b = i ∧ a = nx) := fun h => h1 ⟨h.2, h.1⟩
        rw [if_neg h3, if_neg h4]; exact hm'

/-- C3. Starting from the empty graph, if every fit of `(i, (i+1) mod n)` succeeds
with an invertible homography and `n ≥ 2`, `assume_pano_pairwise` returns a state in
which `b ∈ graph[a]` iff `a ∈ graph[b]` iff `pairwise[a][b]` is present iff
`pairwise[b][a]` is present, and a present `pairwise[a][b]` has its reverse stored with
the inverse homography (both products are `I`) and the same inlier list and
confidence. -/
theorem assume_pano_pairwise_symmetric (n : Nat) (fit : Nat → Nat → Option MatchInfo)
    (hn : 2 ≤ n)
    (hfit : ∀ i, i < n → ∃ info, fit i ((i + 1) % n) = some info ∧ info.homo.det ≠ 0) :
    ∃ s, assume_pano_pairwise n fit PairGraph.empty = .ok s ∧
      ∀ a b,
        (b ∈ s.graph a ↔ a ∈ s.graph b) ∧
        (a ∈ s.graph b ↔ (s.pairwise_matches a b).isSome = true) ∧
        ((s.pairwise_matches a b).isSome = true ↔ (s.pairwise_matches b a).isSome = true) ∧
        ∀ m, s.pairwise_matches a b = some m →
          ∃ m', s.pairwise_matches b a = some m' ∧
            m'.homo = m.homo.inverse ∧
            m.homo.prod m'.homo = Homography.I ∧ m'.homo.prod m.homo = Homography.I ∧
            m'.match_ = m.match_ ∧ m'.confidence = m.confidence := by
  obtain ⟨s, hrun, hinv⟩ := loop_up_total
    (fun (i : Int) (s : PairGraph) =>
      let next : Int := (i + 1) % n
      match fit i.toNat next.toNat with
      | none => (.error (.error_exit (pair_message i next)) : Run PairGraph)
      | some info =>
        let graph := graph_push s.graph i.toNat next.toNat
        let graph := graph_push graph next.toNat i.toNat
        let pw := table_set s.pairwise_matches i.toNat next.toNat info
        let info := { info with homo := info.homo.inverse }
        let pw := table_set pw next.toNat i.toNat info
        .ok { graph := graph, pairwise_matches := pw })
    (fun _ s => PairInv s) n 0 PairGraph.empty PairInv_empty
    (by
      intro k s hk0 hk1 hs
      lift k to ℕ using hk0
      have hk : k < n := by omega
      obtain ⟨info, hf, hd⟩ := hfit k hk
      have e1 : (((k : Int) + 1) % (n : Int)).toNat = (k + 1) % n := by
        have : ((k : Int) + 1) % (n : Int) = (((k + 1) % n : Nat) : Int) := by push_cast; rfl
        rw [this]; exact Int.toNat_natCast _
      have hne : k ≠ (k + 1) % n := by
        intro e
        by_cases h : k + 1 < n
        · rw [Nat.mod_eq_of_lt h] at e; omega
        · have : k + 1 = n := by omega
          rw [this, Nat.mod_self] at e; omega
      refine ⟨_, ?_, PairInv_step s k ((k + 1) % n) info hne hd hs⟩
      simp only [Int.toNat_natCast, e1, hf])
  refine ⟨s, by simpa [assume_pano_pairwise, REP, REPL] using hrun, ?_⟩
  obtain ⟨hg, hp⟩ := hinv
  have hsym : ∀ a b, (s.pairwise_matches a b).isSome = true →
      (s.pairwise_matches b a).isSome = true := by
    intro a b h
    obtain ⟨m, hm⟩ := Option.isSome_iff_exists.mp h
    obtain ⟨_, m', hm', _⟩ := hp a b m hm
    simp [hm']
  intro a b
  refine ⟨?_, ?_, ⟨hsym a b, hsym b a⟩, ?_⟩
  · rw [hg a b, hg b a]; exact ⟨hsym a b, hsym b a⟩
  · rw [hg b a]; exact ⟨hsym b a, hsym a b⟩
  · intro m hm
    obtain ⟨hd, m', hm', e1, e2, e3⟩ := hp a b m hm
    refine ⟨m', hm', e1, ?_, ?_, e2, e3⟩
    · rw [e1]; exact Homography.prod_inverse _ hd
    · rw [e1]; exact Homography.inverse_prod _ hd


/-- C3 on three images that each fit their successor by a translation. -/
theorem assume_pano_pairwise_symmetric_witness :
    2 ≤ 3 ∧
    ∃ s, assume_pano_pairwise 3
        (fun _ _ => some { homo := translation 10 0, match_ := [], confidence := 1 })
        PairGraph.empty = .ok s ∧
      ∀ a b,
        (b ∈ s.graph a ↔ a ∈ s.graph b) ∧
        (a ∈ s.graph b ↔ (s.pairwise_matches a b).isSome = true) ∧
        ((s.pairwise_matches a b).isSome = true ↔ (s.pairwise_matches b a).isSome = true) ∧
        ∀ m, s.pairwise_matches a b = some m →
          ∃ m', s.pairwise_matches b a = some m' ∧
            m'.homo = m.homo.inverse ∧
            m.homo.prod m'.homo = Homography.I ∧ m'.homo.prod m.homo = Homography.I ∧
            m'.match_ = m.match_ ∧ m'.confidence = m.confidence :=
  ⟨by decide,
    assume_pano_pairwise_symmetric 3
      (fun _ _ => some { homo := translation 10 0, match_ := [], confidence := 1 })
      (by decide)
      (fun _ _ => ⟨_, rfl, by simp [translation, Homography.det]⟩)⟩

/-! ## Planar chaining on concrete sweeps -/

/-- C1. On a five-image sweep whose neighbours are 10 pixels apart the planar chain
succeeds, yet `comp[4].homo` differs from `comp[3].homo · pairwise[3][4].homo`: the
loop multiplies by `pairwise[4][3].homo`, the inverse direction, which puts image 4
back onto the identity image. -/
theorem build_bundle_linear_simple_chain_direction :
    ∃ b c3 c4 m,
      build_bundle_linear_simple 5 Homography.I (sweep_table 5 10) = .ok b ∧
      b.component[3]? = some c3 ∧ b.component[4]? = some c4 ∧
      sweep_table 5 10 3 4 = some m ∧
      c4 = Homography.I ∧ c4 ≠ c3.prod m.homo := by
  refine ⟨⟨2, [Homography.I, translation (-10) 0, Homography.I, translation 10 0,
    Homography.I]⟩, translation 10 0, Homography.I, _, ?_, rfl, rfl, rfl, rfl, ?_⟩
  · simp [build_bundle_linear_simple, vec_set, vec_get, pairwise_get, REPL, REPD, loop_up,
      loop_down, sweep_table, bind, Except.bind, pure, Except.pure]
    constructor <;> ext <;> simp [Homography.prod, translation, Homography.I]
  · simp [Homography.prod, translation, Homography.I, Homography.ext_iff]
    norm_num

/-- C2. For one image and for two images the planar chain does not finish: with
exactly the consecutive pairs stored it reads `pairwise[mid][mid+1]`, which was never
stored, and even with every pair stored it writes `comp[mid+1]`, the index `n`,
outside `[0, n)`. -/
theorem build_bundle_linear_simple_small_inputs :
    build_bundle_linear_simple 1 Homography.I (sweep_table 1 10) = .error (.absent 0 1) ∧
    build_bundle_linear_simple 1 Homography.I full_table = .error (.out_of_range 1) ∧
    build_bundle_linear_simple 2 Homography.I (sweep_table 2 10) = .error (.absent 1 2) ∧
    build_bundle_linear_simple 2 Homography.I full_table = .error (.out_of_range 2) := by
  refine ⟨?_, ?_, ?_, ?_⟩ <;>
  simp [build_bundle_linear_simple, vec_set, vec_get, pairwise_get, REPL, REPD, loop_up,
    loop_down, sweep_table, full_table, bind, Except.bind, pure, Except.pure]

/-! ## The failure message of the panorama mode -/

/-- C4. For two images whose pair does not fit, `build_bundle_warp` calls
`update_h_factor` at no factor and aborts with the fixed text "The two image doesn't
match. Failed", which contains no digit, hence neither index. -/
theorem calc_matrix_pano_failure_message :
    build_bundle_warp no_fit (1 / 100) 2 Homography.I
      = ([], .error (.error_exit no_match_message)) ∧
    no_match_message = "The two image doesn't match. Failed" ∧
    ∀ c ∈ no_match_message.toList, ¬ c.isDigit = true := by
  refine ⟨?_, rfl, by decide⟩
  simp [build_bundle_warp, calc_matrix_pano, factor_search, accumulate, no_fit, vec_set,
    vec_get, REP, REPL, REPD, loop_up, loop_down, bind, Except.bind, pure, Except.pure]

/-! ## The inverse map of the renderer -/

/-- C9. For a 101 × 101 image shown at scale one, the code adds the integer half
`101 / 2 = 50`, not `50.5`: output pixel `(0, 0)` is stored as NaN where the exact
half gives the source position `(0, 0)`, and output pixel `(1, 1)` is stored as
`(1/2, 1/2)` where the exact half gives `(1, 1)`. -/
theorem orig_pos_at_integer_half :
    orig_pos_at flat_proj2homo 101 101 unit_plan ⟨0, 0⟩ Homography.I 101 101 0 0 = none ∧
    orig_pos_exact flat_proj2homo 101 101 unit_plan ⟨0, 0⟩ Homography.I 101 101 0 0
      = some ⟨0, 0⟩ ∧
    orig_pos_at flat_proj2homo 101 101 unit_plan ⟨0, 0⟩ Homography.I 101 101 1 1
      = some ⟨1 / 2, 1 / 2⟩ ∧
    orig_pos_exact flat_proj2homo 101 101 unit_plan ⟨0, 0⟩ Homography.I 101 101 1 1
      = some ⟨1, 1⟩ := by
  have e : Int.tdiv 101 2 = 50 := by decide
  refine ⟨?_, ?_, ?_, ?_⟩ <;>
  simp [orig_pos_at, orig_pos_exact, flat_proj2homo, unit_plan, Homography.trans,
    Homography.trans_normalize, Homography.I, e] <;> norm_num

/-! ## Canvas resolution -/

theorem update_h_factor_spec (fit : WarpedFit) (n : Nat) (mid : Int) (g : ℚ) (s s' : Search)
    (slope : ℚ) (h : update_h_factor fit n mid g s = .ok (slope, s')) :
    ∃ nowmat, chain_right fit n mid g = .ok nowmat ∧ slope_of nowmat = .ok slope ∧
      ((|slope| < s.minslope ∧ s' = { minslope := |slope|, bestfactor := g, mat := nowmat }) ∨
       (¬ |slope| < s.minslope ∧ s' = s)) := by
  unfold update_h_factor at h
  cases hc : chain_right fit n mid g with
  | error e => rw [hc] at h; cases h
  | ok nowmat =>
    cases hs : slope_of nowmat with
    | error e => rw [hc] at h; simp only [bind, Except.bind, hs] at h; cases h
    | ok sl =>
      rw [hc] at h
      simp only [bind, Except.bind, hs, update_min] at h
      refine ⟨nowmat, rfl, ?_⟩
      by_cases hlt : |sl| < s.minslope
      · simp only [hlt, if_true, pure, Except.pure, Except.ok.injEq, Prod.mk.injEq] at h
        obtain ⟨rfl, rfl⟩ := h
        exact ⟨hs, Or.inl ⟨hlt, rfl⟩⟩
      · simp only [hlt, if_false, pure, Except.pure, Except.ok.injEq, Prod.mk.injEq] at h
        obtain ⟨rfl, rfl⟩ := h
        exact ⟨hs, Or.inr ⟨hlt, rfl⟩⟩

theorem eval_slope_of_chain (fit : WarpedFit) (n : Nat) (mid : Int) (g : ℚ)
    (nowmat : List Homography) (slope : ℚ) (hc : chain_right fit n mid g = .ok nowmat)
    (hs : slope_of nowmat = .ok slope) : eval_slope fit n mid g = .ok slope := by
  simp only [eval_slope, hc, bind, Except.bind, hs]

theorem BestOf_update (fit : WarpedFit) (n : Nat) (mid : Int) (tr : List ℚ) (g : ℚ)
    (s s' : Search) (slope : ℚ) (hJ : BestOf fit n mid tr s)
    (h : update_h_factor fit n mid g s = .ok (slope, s')) :
    BestOf fit n mid (tr ++ [g]) s' := by
  obtain ⟨nowmat, hc, hs, hcase⟩ := update_h_factor_spec fit n mid g s s' slope h
  have he := eval_slope_of_chain fit n mid g nowmat slope hc hs
  obtain ⟨hmem, hch, sb, hsb, hmin, hall⟩ := hJ
  rcases hcase with ⟨hlt, rfl⟩ | ⟨hge, rfl⟩
  · refine ⟨by simp, hc, slope, he, rfl, ?_⟩
    intro g' hg'
    rcases List.mem_append.mp hg' with h1 | h1
    · obtain ⟨sg, hsg, hle⟩ := hall g' h1
      exact ⟨sg, hsg, by rw [hmin] at hlt; linarith⟩
    · simp only [List.mem_singleton] at h1; subst h1
      exact ⟨slope, he, le_rfl⟩
  · refine ⟨by simp [hmem], hch, sb, hsb, hmin, ?_⟩
    intro g' hg'
    rcases List.mem_append.mp hg' with h1 | h1
    · exact hall g' h1
    · simp only [List.mem_singleton] at h1; subst h1
      exact ⟨slope, he, by rw [hmin] at hge; linarith⟩

theorem BestOf_refine (fit : WarpedFit) (n : Nat) (mid : Int) (sp order : ℚ) (rounds : Nat) :
    ∀ (k : Nat) (nf slope : ℚ) (s s' : Search) (tr0 : List ℚ),
      BestOf fit n mid tr0 s →
      (refine_factor fit n mid sp order k rounds nf slope s).2 = .ok s' →
      BestOf fit n mid (tr0 ++ (refine_factor fit n mid sp order k rounds nf slope s).1) s' := by
  induction rounds with
  | zero =>
    intro k nf slope s s' tr0 hJ h
    simp only [refine_factor, Except.ok.injEq] at h ⊢
    subst h; simpa using hJ
  | succ r ih =>
    intro k nf slope s s' tr0 hJ h
    unfold refine_factor at h ⊢
    by_cases hb : |slope| < sp
    · simp only [hb, if_true, Except.ok.injEq] at h ⊢
      subst h; simpa using hJ
    · simp only [hb, if_false] at h ⊢
      cases hu : update_h_factor fit n mid
          (nf + (if slope < 0 then order else -order) / (5 * 2 ^ k)) s with
      | error e => rw [hu] at h; cases h
      | ok res =>
        obtain ⟨slope1, s1⟩ := res
        rw [hu] at h
        simp only at h ⊢
        have hJ1 := BestOf_update fit n mid tr0 _ s s1 slope1 hJ hu
        have := ih (k + 1) _ slope1 s1 s' _ hJ1 h
        simpa using this


theorem step_budget_nonneg (rounds : Nat) : ∀ k, 0 ≤ step_budget k rounds := by
  induction rounds with
  | zero => intro k; simp [step_budget]
  | succ r ih =>
    intro k
    have := ih (k + 1)
    have h2 : (0 : ℚ) < 1 / (5 * 2 ^ k) := by positivity
    simp only [step_budget]; linarith

theorem step_abs (order slope : ℚ) (k : Nat) (ho : order = 1 ∨ order = -1) :
    |(if slope < 0 then order else -order) / (5 * 2 ^ k)| = 1 / (5 * 2 ^ k) := by
  have hpos : (0 : ℚ) < 5 * 2 ^ k := by positivity
  rw [abs_div, abs_of_pos hpos]
  congr 1
  rcases ho with rfl | rfl <;> split_ifs <;> simp

theorem refine_factor_window (fit : WarpedFit) (n : Nat) (mid : Int) (sp order : ℚ)
    (ho : order = 1 ∨ order = -1) (rounds : Nat) :
    ∀ (k : Nat) (nf slope : ℚ) (s : Search),
      (refine_factor fit n mid sp order k rounds nf slope s).1.length ≤ rounds ∧
      (∀ g ∈ (refine_factor fit n mid sp order k rounds nf slope s).1,
        |g - nf| ≤ step_budget k rounds) ∧
      (∀ g, (refine_factor fit n mid sp order k rounds nf slope s).1[0]? = some g →
        |g - nf| = 1 / (5 * 2 ^ k)) ∧
      (∀ i a b, (refine_factor fit n mid sp order k rounds nf slope s).1[i]? = some a →
        (refine_factor fit n mid sp order k rounds nf slope s).1[i + 1]? = some b →
        |b - a| = 1 / (5 * 2 ^ (k + 1 + i))) ∧
      (∀ s', (refine_factor fit n mid sp order k rounds nf slope s).2 = .ok s' →
        s'.bestfactor = s.bestfactor ∨
          s'.bestfactor ∈ (refine_factor fit n mid sp order k rounds nf slope s).1) := by
  induction rounds with
  | zero =>
    intro k nf slope s
    simp only [refine_factor]
    refine ⟨le_rfl, by simp, by simp, by simp, ?_⟩
    intro s' h
    simp only [Except.ok.injEq] at h
    exact Or.inl (by rw [h])
  | succ r ih =>
    intro k nf slope s
    have hbud := step_budget_nonneg r (k + 1)
    have hstep := step_abs order slope k ho
    unfold refine_factor
    by_cases hb : |slope| < sp
    · simp only [hb, if_true]
      refine ⟨by simp, by simp, by simp, by simp, ?_⟩
      intro s' h
      simp only [Except.ok.injEq] at h
      exact Or.inl (by rw [h])
    · simp only [hb, if_false]
      cases hu : update_h_factor fit n mid
          (nf + (if slope < 0 then order else -order) / (5 * 2 ^ k)) s with
      | error e =>
        simp only
        refine ⟨by simp, ?_, ?_, ?_, ?_⟩
        · intro g hg
          simp only [List.mem_singleton] at hg
          subst hg
          simp only [add_sub_cancel_left, hstep, step_budget]
          linarith
        · intro g hg
          simp only [List.getElem?_cons_zero, Option.some.injEq] at hg
          subst hg
          simp only [add_sub_cancel_left, hstep]
        · intro i a b _ hb'
          simp at hb'
        · intro s' h; cases h
      | ok res =>
        obtain ⟨slope1, s1⟩ := res
        simp only
        obtain ⟨h1, h2, h3, h4, h5⟩ := ih (k + 1)
          (nf + (if slope < 0 then order else -order) / (5 * 2 ^ k)) slope1 s1
        obtain ⟨nowmat, _, _, hcase⟩ := update_h_factor_spec fit n mid _ s s1 slope1 hu
        refine ⟨by simp only [List.length_cons]; omega, ?_, ?_, ?_, ?_⟩
        · intro g hg
          rcases List.mem_cons.mp hg with rfl | hg
          · simp only [add_sub_cancel_left, hstep, step_budget]
            linarith
          · have := h2 g hg
            have e : g - nf = (g - (nf + (if slope < 0 then order else -order) / (5 * 2 ^ k)))
                + (if slope < 0 then order else -order) / (5 * 2 ^ k) := by ring
            rw [e]
            calc |(g - (nf + (if slope < 0 then order else -order) / (5 * 2 ^ k)))
                + (if slope < 0 then order else -order) / (5 * 2 ^ k)|
                ≤ |g - (nf + (if slope < 0 then order else -order) / (5 * 2 ^ k))|
                  + |(if slope < 0 then order else -order) / (5 * 2 ^ k)| := abs_add _ _
              _ ≤ step_budget (k + 1) r + 1 / (5 * 2 ^ k) := by rw [hstep]; linarith
              _ = step_budget k (r + 1) := by simp only [step_budget]; ring
        · intro g hg
          simp only [List.getElem?_cons_zero, Option.some.injEq] at hg
          subst hg
          simp only [add_sub_cancel_left, hstep]
        · intro i a b ha hb'
          cases i with
          | zero =>
            simp only [List.getElem?_cons_zero, Option.some.injEq] at ha
            simp only [zero_add, List.getElem?_cons_succ] at hb'
            subst ha
            simpa using h3 b hb'
          | succ i =>
            simp only [List.getElem?_cons_succ] at ha hb'
            have := h4 i a b ha hb'
            have e : k + 1 + (i + 1) = k + 1 + 1 + i := by ring
            rw [e]; exact this
        · intro s' h
          rcases h5 s' h with h6 | h6
          · rcases hcase with ⟨_, rfl⟩ | ⟨_, rfl⟩
            · right; rw [h6]; simp
            · left; exact h6
          · right; exact List.mem_cons_of_mem _ h6

theorem step_budget_three : step_budget 0 3 = 7 / 20 := by
  norm_num [step_budget]


theorem factor_search_skip (fit : WarpedFit) (sp : ℚ) (n : Nat) (mid : Int)
    (h : ¬ (n : Int) - mid > 1) :
    factor_search fit sp n mid
      = ([], .ok { minslope := FLT_MAX, bestfactor := 1, mat := [] }) := by
  simp only [factor_search, h, if_false]

theorem factor_search_run (fit : WarpedFit) (sp : ℚ) (n : Nat) (mid : Int)
    (h : (n : Int) - mid > 1) :
    (∃ e, factor_search fit sp n mid = ([1], .error e)) ∨
    ∃ slope s1 order nowmat, (order = 1 ∨ order = -1) ∧
      update_h_factor fit n mid 1 { minslope := FLT_MAX, bestfactor := 1, mat := [] }
        = .ok (slope, s1) ∧
      s1 = { minslope := |slope|, bestfactor := 1, mat := nowmat } ∧
      chain_right fit n mid 1 = .ok nowmat ∧ slope_of nowmat = .ok slope ∧
      factor_search fit sp n mid
        = (1 :: (refine_factor fit n mid sp order 0 3 1 slope s1).1,
            (refine_factor fit n mid sp order 0 3 1 slope s1).2) := by
  unfold factor_search
  simp only [h, if_true]
  cases hu : update_h_factor fit n mid 1 { minslope := FLT_MAX, bestfactor := 1, mat := [] } with
  | error e => exact Or.inl ⟨e, rfl⟩
  | ok res =>
    obtain ⟨slope, s1⟩ := res
    obtain ⟨nowmat, hc, hsl, hcase⟩ := update_h_factor_spec fit n mid 1 _ s1 slope hu
    simp only
    rcases hcase with ⟨_, rfl⟩ | ⟨_, rfl⟩
    · cases nowmat with
      | nil => exact Or.inl ⟨_, rfl⟩
      | cons first rest =>
        right
        refine ⟨slope, _, if (first.trans2d 0 0).x > 0 then 1 else -1, first :: rest, ?_,
          rfl, rfl, hc, hsl, rfl⟩
        split_ifs <;> simp
    · exact Or.inl ⟨_, rfl⟩

theorem factor_search_trace (fit : WarpedFit) (sp : ℚ) (n : Nat) (mid : Int) :
    (factor_search fit sp n mid).1.length ≤ 4 ∧
    (∀ g ∈ (factor_search fit sp n mid).1, |g - 1| ≤ 7 / 20) ∧
    (∀ g, (factor_search fit sp n mid).1[0]? = some g → g = 1) ∧
    (∀ i a b, (factor_search fit sp n mid).1[i]? = some a →
      (factor_search fit sp n mid).1[i + 1]? = some b → |b - a| = 1 / (5 * 2 ^ i)) ∧
    (∀ s', (factor_search fit sp n mid).2 = .ok s' → |s'.bestfactor - 1| ≤ 7 / 20) := by
  by_cases h : (n : Int) - mid > 1
  · rcases factor_search_run fit sp n mid h with ⟨e, he⟩ | ⟨slope, s1, order, nowmat, ho, _, hs1, _, _, he⟩
    · rw [he]
      refine ⟨by simp, ?_, by simp, by simp, by simp⟩
      intro g hg
      simp only [List.mem_singleton] at hg
      subst hg; norm_num
    · rw [he]
      obtain ⟨h1, h2, h3, h4, h5⟩ := refine_factor_window fit n mid sp order ho 3 0 1 slope s1
      rw [step_budget_three] at h2
      refine ⟨by simp only [List.length_cons]; omega, ?_, by simp, ?_, ?_⟩
      · intro g hg
        rcases List.mem_cons.mp hg with rfl | hg
        · norm_num
        · exact h2 g hg
      · intro i a b ha hb
        cases i with
        | zero =>
          simp only [List.getElem?_cons_zero, Option.some.injEq] at ha
          simp only [zero_add, List.getElem?_cons_succ] at hb
          subst ha
          simpa using h3 b hb
        | succ i =>
          simp only [List.getElem?_cons_succ] at ha hb
          have := h4 i a b ha hb
          have e : 0 + 1 + i = i + 1 := by ring
          rw [e] at this; exact this
      · intro s' hs'
        rcases h5 s' hs' with h6 | h6
        · rw [h6, hs1]; norm_num
        · exact h2 _ h6
  · rw [factor_search_skip fit sp n mid h]
    refine ⟨by simp, by simp, by simp, by simp, ?_⟩
    intro s' hs'
    simp only [Except.ok.injEq] at hs'
    rw [← hs']; norm_num

theorem factor_search_best (fit : WarpedFit) (sp : ℚ) (n : Nat) (mid : Int) (s' : Search)
    (h : (n : Int) - mid > 1) (hs : (factor_search fit sp n mid).2 = .ok s') :
    BestOf fit n mid (factor_search fit sp n mid).1 s' ∧ 1 ∈ (factor_search fit sp n mid).1 := by
  rcases factor_search_run fit sp n mid h with
    ⟨e, he⟩ | ⟨slope, s1, order, nowmat, ho, hu, hs1, hc, hsl, he⟩
  · rw [he] at hs; cases hs
  · rw [he] at hs ⊢
    simp only at hs
    have hslope := eval_slope_of_chain fit n mid 1 nowmat slope hc hsl
    have hJ : BestOf fit n mid [1] s1 := by
      rw [hs1]
      refine ⟨by simp, hc, slope, hslope, rfl, ?_⟩
      intro g hg
      simp only [List.mem_singleton] at hg
      subst hg
      exact ⟨slope, hslope, le_rfl⟩
    have := BestOf_refine fit n mid sp order 3 0 1 slope s1 s' [1] hJ hs
    exact ⟨by simpa using this, by simp⟩

theorem calc_matrix_pano_trace (fit : WarpedFit) (sp : ℚ) (n : Nat)
    (component : List Homography) :
    (calc_matrix_pano fit sp n component).1 = [] ∨
      (calc_matrix_pano fit sp n component).1 = (factor_search fit sp n ((n : Int) / 2)).1 := by
  unfold calc_matrix_pano
  cases REP (n : Int) (fun i comp => vec_set comp i Homography.I) component with
  | error e => exact Or.inl rfl
  | ok comp =>
    by_cases h0 : n = 0
    · simp only; rw [if_pos h0]; exact Or.inl rfl
    · simp only; rw [if_neg h0]; exact Or.inr rfl

theorem calc_matrix_pano_ok (fit : WarpedFit) (sp : ℚ) (n : Nat)
    (component : List Homography) (res : PanoResult)
    (h : (calc_matrix_pano fit sp n component).2 = .ok res) :
    n ≠ 0 ∧ ∃ comp s,
      REP (n : Int) (fun i comp => vec_set comp i Homography.I) component = .ok comp ∧
      (factor_search fit sp n ((n : Int) / 2)).2 = .ok s ∧
      (calc_matrix_pano fit sp n component).1 = (factor_search fit sp n ((n : Int) / 2)).1 ∧
      accumulate fit n ((n : Int) / 2) s.bestfactor s.mat comp = .ok res.bundle.component ∧
      res.bundle.identity_idx = (n : Int) / 2 ∧
      res.bestfactor = s.bestfactor ∧ res.bestmat = s.mat := by
  unfold calc_matrix_pano at h ⊢
  cases hr : REP (n : Int) (fun i comp => vec_set comp i Homography.I) component with
  | error e => rw [hr] at h; cases h
  | ok comp =>
    rw [hr] at h
    simp only at h ⊢
    by_cases h0 : n = 0
    · rw [if_pos h0] at h; cases h
    · rw [if_neg h0] at h ⊢
      refine ⟨h0, comp, ?_⟩
      cases hf : (factor_search fit sp n ((n : Int) / 2)).2 with
      | error e => simp only [hf, bind, Except.bind] at h; cases h
      | ok s =>
        cases ha : accumulate fit n ((n : Int) / 2) s.bestfactor s.mat comp with
        | error e => simp only [hf, bind, Except.bind, ha] at h; cases h
        | ok comp' =>
          simp only [hf, bind, Except.bind, ha, pure, Except.pure, Except.ok.injEq] at h
          subst h
          exact ⟨s, rfl, rfl, rfl, ha, rfl, rfl, rfl⟩

/-- C10. Whatever the fits return, `calc_matrix_pano` calls `update_h_factor` at most
4 times, first at factor `1` and then after steps of magnitude `1/5`, `1/10`, `1/20`;
every evaluated factor and the chosen `bestfactor` lie in `[13/20, 27/20]`, so
`bestfactor > 0`; and when `n ≤ ⌊n/2⌋ + 1` no factor is evaluated and
`bestfactor = 1`. -/
theorem factor_search_window (fit : WarpedFit) (SLOPE_PLAIN : ℚ) (n : Nat)
    (component : List Homography) :
    (calc_matrix_pano fit SLOPE_PLAIN n component).1.length ≤ 4 ∧
    (∀ g, (calc_matrix_pano fit SLOPE_PLAIN n component).1[0]? = some g → g = 1) ∧
    (∀ i a b, (calc_matrix_pano fit SLOPE_PLAIN n component).1[i]? = some a →
      (calc_matrix_pano fit SLOPE_PLAIN n component).1[i + 1]? = some b →
      |b - a| = 1 / (5 * 2 ^ i)) ∧
    (∀ g ∈ (calc_matrix_pano fit SLOPE_PLAIN n component).1, 13 / 20 ≤ g ∧ g ≤ 27 / 20) ∧
    (∀ res, (calc_matrix_pano fit SLOPE_PLAIN n component).2 = .ok res →
      13 / 20 ≤ res.bestfactor ∧ res.bestfactor ≤ 27 / 20 ∧ 0 < res.bestfactor) ∧
    (n ≤ n / 2 + 1 →
      (calc_matrix_pano fit SLOPE_PLAIN n component).1 = [] ∧
      factor_search fit SLOPE_PLAIN n ((n : Int) / 2)
        = ([], .ok { minslope := FLT_MAX, bestfactor := 1, mat := [] }) ∧
      ∀ res, (calc_matrix_pano fit SLOPE_PLAIN n component).2 = .ok res →
        res.bestfactor = 1) := by
  obtain ⟨h1, h2, h3, h4, h5⟩ := factor_search_trace fit SLOPE_PLAIN n ((n : Int) / 2)
  have hwin : ∀ g : ℚ, |g - 1| ≤ 7 / 20 → 13 / 20 ≤ g ∧ g ≤ 27 / 20 := by
    intro g hg
    have := abs_le.mp hg
    constructor <;> linarith [this.1, this.2]
  refine ⟨?_, ?_, ?_, ?_, ?_, ?_⟩
  · rcases calc_matrix_pano_trace fit SLOPE_PLAIN n component with e | e <;> rw [e]
    · simp
    · exact h1
  · rcases calc_matrix_pano_trace fit SLOPE_PLAIN n component with e | e <;> rw [e]
    · simp
    · exact h3
  · rcases calc_matrix_pano_trace fit SLOPE_PLAIN n component with e | e <;> rw [e]
    · simp
    · exact h4
  · rcases calc_matrix_pano_trace fit SLOPE_PLAIN n component with e | e <;> rw [e]
    · simp
    · intro g hg; exact hwin g (h2 g hg)
  · intro res hres
    obtain ⟨_, comp, s, _, hf, _, _, _, hb, _⟩ :=
      calc_matrix_pano_ok fit SLOPE_PLAIN n component res hres
    have := hwin _ (h5 s hf)
    rw [hb]
    exact ⟨this.1, this.2, by linarith [this.1]⟩
  · intro hsmall
    have hskip : ¬ ((n : Int) - (n : Int) / 2 > 1) := by omega
    have hfs := factor_search_skip fit SLOPE_PLAIN n ((n : Int) / 2) hskip
    refine ⟨?_, hfs, ?_⟩
    · rcases calc_matrix_pano_trace fit SLOPE_PLAIN n component with e | e
      · exact e
      · rw [e, hfs]
    · intro res hres
      obtain ⟨_, comp, s, _, hf, _, _, _, hb, _⟩ :=
        calc_matrix_pano_ok fit SLOPE_PLAIN n component res hres
      rw [hfs] at hf
      simp only [Except.ok.injEq] at hf
      rw [hb, ← hf]

/-! ## Chaining in panorama mode -/

theorem bind_ok_inv {α β : Type} (x : Run α) (f : α → Run β) (b : β)
    (h : x >>= f = .ok b) : ∃ a, x = .ok a ∧ f a = .ok b := by
  cases x with
  | error e => cases h
  | ok a => exact ⟨a, rfl, h⟩

/-- The fits collected by the first loop of `update_h_factor`. -/
theorem fit_loop_spec (fit : WarpedFit) (m : Nat) (f : ℚ) (len : Int) (l : List Homography)
    (h : REPL 1 len (fun k nowmat =>
      match fit f (k - 1 + (m : Int)).toNat (k + (m : Int)).toNat with
      | none => (.error (.error_exit no_match_message) : Run (List Homography))
      | some h => .ok (nowmat ++ [h])) [] = .ok l) :
    l.length = (len - 1).toNat ∧ ∀ j, j < l.length → fit f (m + j) (m + j + 1) = l[j]? := by
  have := loop_up_partial
    (fun k nowmat =>
      match fit f (k - 1 + (m : Int)).toNat (k + (m : Int)).toNat with
      | none => (.error (.error_exit no_match_message) : Run (List Homography))
      | some h => .ok (nowmat ++ [h]))
    (fun k (s : List Homography) => (s.length : Int) = k - 1 ∧
      ∀ j, j < s.length → fit f (m + j) (m + j + 1) = s[j]?)
    (len - 1).toNat 1 [] l ⟨by simp, by simp⟩
    (by
      intro k s s' hk1 _ ⟨hlen, hP⟩ hb
      have e1 : (k - 1 + (m : Int)).toNat = m + s.length := by omega
      have e2 : (k + (m : Int)).toNat = m + s.length + 1 := by omega
      simp only [e1, e2] at hb
      cases hf : fit f (m + s.length) (m + s.length + 1) with
      | none => rw [hf] at hb; cases hb
      | some h' =>
        rw [hf] at hb
        simp only [Except.ok.injEq] at hb
        subst hb
        refine ⟨by simp only [List.length_append, List.length_singleton]; push_cast; omega, ?_⟩
        intro j hj
        simp only [List.length_append, List.length_singleton] at hj
        by_cases hj' : j < s.length
        · rw [List.getElem?_append_left hj']; exact hP j hj'
        · have : j = s.length := by omega
          subst this
          rw [List.getElem?_concat_length]; exact hf)
    (by simpa [REPL] using h)
  obtain ⟨h1, h2⟩ := this
  exact ⟨by omega, h2⟩

theorem take_succ_prod (l : List Homography) (k : Nat) (b : Homography) (h : l[k]? = some b) :
    (l.take (k + 1)).prod = (l.take k).prod * b := by
  rw [List.take_succ, h]
  simp [List.prod_append]

/-- The second loop of `update_h_factor` turns `nowmat` into its prefix products. -/
theorem chain_loop_spec (l0 : List Homography) (len : Int) (hlen : (l0.length : Int) = len - 1)
    (hpos : 1 ≤ l0.length) :
    ∃ l, REPL 1 (len - 1) (fun k nowmat => do
        let a ← vec_get nowmat (k - 1)
        let b ← vec_get nowmat k
        vec_set nowmat k (a.prod b)) l0 = .ok l ∧
      l.length = l0.length ∧ ∀ j, j < l0.length → l[j]? = some (l0.take (j + 1)).prod := by
  obtain ⟨l, hl, hlen', hP⟩ := loop_up_total
    (fun k nowmat => do
        let a ← vec_get nowmat (k - 1)
        let b ← vec_get nowmat k
        vec_set nowmat k (a.prod b))
    (fun k (s : List Homography) => s.length = l0.length ∧
      ∀ j : Nat, j < l0.length → (((j : Int) < k → s[j]? = some (l0.take (j + 1)).prod) ∧
        (k ≤ (j : Int) → s[j]? = l0[j]?)))
    (len - 1 - 1).toNat 1 l0
    ⟨rfl, fun j hj => ⟨fun hj1 => by
        have : j = 0 := by omega
        subst this
        rw [List.getElem?_eq_getElem hj]
        congr 1
        rw [take_succ_prod l0 0 _ (List.getElem?_eq_getElem hj)]
        simp, fun _ => rfl⟩⟩
    (by
      intro k s hk1 hk2 ⟨hsl, hP⟩
      lift k to ℕ using (by omega)
      have hk : k < l0.length := by omega
      have hk' : k - 1 < l0.length := by omega
      have ha : s[k - 1]? = some (l0.take (k - 1 + 1)).prod := (hP (k - 1) hk').1 (by omega)
      have hb : s[k]? = some l0[k] := by
        rw [(hP k hk).2 le_rfl]; exact List.getElem?_eq_getElem hk
      have e : ((k : Int) - 1) = ((k - 1 : Nat) : Int) := by omega
      refine ⟨s.set k ((l0.take (k - 1 + 1)).prod.prod l0[k]), ?_, ?_, ?_⟩
      · show (vec_get s ((k : Int) - 1) >>= fun a => vec_get s (k : Int) >>= fun b =>
          vec_set s (k : Int) (a.prod b)) = _
        rw [e, vec_get_ok s (k - 1) _ ha]
        show (vec_get s (k : Int) >>= fun b => vec_set s (k : Int) (_)) = _
        rw [vec_get_ok s k _ hb]
        exact vec_set_ok s k _ (by omega)
      · simp [hsl]
      · intro j hj
        rw [List.getElem?_set]
        constructor
        · intro hj1
          by_cases e' : k = j
          · subst e'
            simp only [if_true, hsl, hk]
            congr 1
            rw [take_succ_prod l0 k _ (List.getElem?_eq_getElem hk)]
            have : k - 1 + 1 = k := by omega
            rw [this]; rfl
          · simp only [e', if_false]; exact (hP j hj).1 (by omega)
        · intro hj1
          have e' : k ≠ j := by omega
          simp only [e', if_false]; exact (hP j hj).2 (by omega))
  refine ⟨l, by simpa [REPL] using hl, hlen', ?_⟩
  intro j hj
  exact (hP j hj).1 (by omega)


theorem chain_right_spec (fit : WarpedFit) (n m : Nat) (f : ℚ) (l : List Homography)
    (hnm : m + 1 < n) (h : chain_right fit n (m : Int) f = .ok l) :
    l.length = n - m - 1 ∧
    (∀ j, m ≤ j → j + 1 < n → fit f j (j + 1) = some ((fit f j (j + 1)).getD Homography.I)) ∧
    ∀ j, j < n - m - 1 →
      l[j]? = some ((List.range (j + 1)).map
        (fun i => (fit f (m + i) (m + i + 1)).getD Homography.I)).prod := by
  unfold chain_right at h
  obtain ⟨l0, h0, h1⟩ := bind_ok_inv _ _ _ h
  obtain ⟨hl0, hfit⟩ := fit_loop_spec fit m f _ l0 h0
  have hl0' : l0.length = n - m - 1 := by omega
  obtain ⟨l', hl', hlen', hP⟩ := chain_loop_spec l0 ((n : Int) - (m : Int)) (by omega) (by omega)
  have hll : l = l' := by
    have e : (Except.ok l : Run (List Homography)) = Except.ok l' := by rw [← h1, ← hl']
    simpa using e
  subst hll
  have hR : ∀ j, m ≤ j → j + 1 < n →
      fit f j (j + 1) = some ((fit f j (j + 1)).getD Homography.I) := by
    intro j hj1 hj2
    have := hfit (j - m) (by omega)
    have e : m + (j - m) = j := by omega
    rw [e] at this
    rw [this, List.getElem?_eq_getElem (by omega)]
    rfl
  refine ⟨by omega, hR, ?_⟩
  intro j hj
  rw [hP j (by omega)]
  congr 2
  apply List.ext_getElem?
  intro i
  rw [List.getElem?_take, List.getElem?_map]
  by_cases hi : i < j + 1
  · simp only [hi, if_true]
    rw [List.getElem?_range hi, ← hfit i (by omega), hR (m + i) (by omega) (by omega)]
    rfl
  · simp only [hi, if_false]
    rw [List.getElem?_eq_none (by simp; omega)]
    rfl

/-- Setting every slot of a vector of size `n` to `c`. -/
theorem REP_fill (c : Homography) (l : List Homography) :
    REP (l.length : Int) (fun i comp => vec_set comp i c) l
      = .ok (List.replicate l.length c) := by
  obtain ⟨s', hs, hlen, hP⟩ := loop_up_total
    (fun i comp => vec_set comp i c)
    (fun k (s : List Homography) => s.length = l.length ∧
      ∀ j : Nat, j < l.length → (j : Int) < k → s[j]? = some c)
    l.length 0 l ⟨rfl, fun j _ h => by omega⟩
    (by
      intro k s hk0 hk1 ⟨hlen, hP⟩
      lift k to ℕ using hk0
      refine ⟨s.set k c, vec_set_ok s k c (by omega), by simp [hlen], ?_⟩
      intro j hj hjk
      rw [List.getElem?_set]
      by_cases e : k = j
      · subst e; simp [hlen, hj]
      · simp only [e, if_false]; exact hP j hj (by omega))
  have : s' = List.replicate l.length c := by
    apply List.ext_getElem?
    intro j
    rw [List.getElem?_replicate]
    by_cases hj : j < l.length
    · simp only [hj, if_true]; exact hP j hj (by omega)
    · simp only [hj, if_false]; exact List.getElem?_eq_none (by omega)
  rw [← this]
  simpa [REP, REPL] using hs


/-- The loop that copies `bestmat` into the right half of the bundle. -/
theorem fill_right_spec (bestmat comp : List Homography) (n m : Nat) (hc : comp.length = n)
    (hb : bestmat.length = n - m - 1) :
    ∃ c1, REPL ((m : Int) + 1) (n : Int) (fun k comp => do
        let h ← vec_get bestmat (k - (m : Int) - 1)
        vec_set comp k h) comp = .ok c1 ∧
      c1.length = n ∧ (∀ j, j ≤ m → c1[j]? = comp[j]?) ∧
      ∀ j, m < j → j < n → c1[j]? = bestmat[j - m - 1]? := by
  obtain ⟨c1, hrun, hlen, hP⟩ := loop_up_total
    (fun k comp => do
        let h ← vec_get bestmat (k - (m : Int) - 1)
        vec_set comp k h)
    (fun k (s : List Homography) => s.length = n ∧
      ∀ j : Nat, (j ≤ m → s[j]? = comp[j]?) ∧
        (m < j → (j : Int) < k → j < n → s[j]? = bestmat[j - m - 1]?))
    ((n : Int) - ((m : Int) + 1)).toNat ((m : Int) + 1) comp
    ⟨hc, fun j => ⟨fun _ => rfl, fun h1 h2 _ => by omega⟩⟩
    (by
      intro k s hk0 hk1 ⟨hlen, hP⟩
      lift k to ℕ using (by omega)
      have hk : k < n := by omega
      have hkm : m < k := by omega
      have e : (k : Int) - (m : Int) - 1 = ((k - m - 1 : Nat) : Int) := by omega
      obtain ⟨b, hget⟩ : ∃ b, bestmat[k - m - 1]? = some b :=
        ⟨_, List.getElem?_eq_getElem (by omega)⟩
      have hv : vec_get bestmat ((k : Int) - (m : Int) - 1) = .ok b := by
        rw [e]; exact vec_get_ok bestmat _ _ hget
      refine ⟨s.set k b, ?_, by simp [hlen], ?_⟩
      · show (vec_get bestmat ((k : Int) - (m : Int) - 1) >>= fun h => vec_set s (k : Int) h) = _
        rw [hv]
        exact vec_set_ok s k _ (by omega)
      · intro j
        rw [List.getElem?_set]
        constructor
        · intro hj
          have e' : k ≠ j := by omega
          simp only [e', if_false]; exact (hP j).1 hj
        · intro hj1 hj2 hj3
          by_cases e' : k = j
          · subst e'; simp only [if_true, hlen, hk]; exact hget.symm
          · simp only [e', if_false]; exact (hP j).2 hj1 (by omega) hj3)
  refine ⟨c1, by simpa [REPL] using hrun, hlen, fun j hj => (hP j).1 hj, ?_⟩
  intro j hj1 hj2
  exact (hP j).2 hj1 (by omega) hj2

/-- The loop that fits the pairs `(i + 1, i)` of the left half. -/
theorem fit_left_spec (fit : WarpedFit) (bf : ℚ) (c1 c2 : List Homography) (n m : Nat)
    (hc : c1.length = n)
    (h : REPD ((m : Int) - 1) 0 (fun i comp =>
      match fit bf (i + 1).toNat i.toNat with
      | none => (.error (.error_exit no_match_message) : Run (List Homography))
      | some h => vec_set comp i h) c1 = .ok c2) :
    c2.length = n ∧ (∀ j, j < m → fit bf (j + 1) j = c2[j]?) ∧
      ∀ j, m ≤ j → c2[j]? = c1[j]? := by
  have := loop_down_partial
    (fun i comp =>
      match fit bf (i + 1).toNat i.toNat with
      | none => (.error (.error_exit no_match_message) : Run (List Homography))
      | some h => vec_set comp i h)
    (fun k (s : List Homography) => s.length = n ∧
      ∀ j : Nat, (k < (j : Int) → j < m → fit bf (j + 1) j = s[j]?) ∧
        (m ≤ j → s[j]? = c1[j]?))
    ((m : Int) - 1 - 0 + 1).toNat ((m : Int) - 1) c1 c2
    ⟨hc, fun j => ⟨fun h1 h2 => by omega, fun _ => rfl⟩⟩
    (by
      intro k s s' hk0 hk1 ⟨hlen, hP⟩ hb
      lift k to ℕ using (by omega)
      have e1 : ((k : Int) + 1).toNat = k + 1 := by omega
      simp only [e1, Int.toNat_natCast] at hb
      cases hf : fit bf (k + 1) k with
      | none => rw [hf] at hb; cases hb
      | some h' =>
        rw [hf] at hb
        obtain ⟨_, hk2, hs'⟩ := vec_set_inv _ _ _ _ hb
        simp only [Int.toNat_natCast] at hk2 hs'
        subst hs'
        refine ⟨by simp [hlen], ?_⟩
        intro j
        rw [List.getElem?_set]
        constructor
        · intro hj1 hj2
          by_cases e' : k = j
          · subst e'; simp only [if_true, hk2]; exact hf
          · simp only [e', if_false]; exact (hP j).1 (by omega) hj2
        · intro hj
          have e' : k ≠ j := by omega
          simp only [e', if_false]; exact (hP j).2 hj)
    (by simpa [REPD] using h)
  obtain ⟨h1, h2⟩ := this
  exact ⟨h1, fun j hj => (h2 j).1 (by omega) hj, fun j hj => (h2 j).2 hj⟩

theorem left_prod_step (L : Nat → Homography) (m k : Nat) (hk : k + 1 ≤ m) :
    ((List.range (m - k)).map (fun i => L (m - 1 - i))).prod
      = ((List.range (m - (k + 1))).map (fun i => L (m - 1 - i))).prod * L k := by
  have e : m - k = (m - (k + 1)) + 1 := by omega
  rw [e, List.range_succ, List.map_append, List.prod_append]
  have e2 : m - 1 - (m - (k + 1)) = k := by omega
  simp [e2]

/-- The loop that chains the left half leftwards from `mid`. -/
theorem chain_left_spec (L : Nat → Homography) (c2 : List Homography) (n m : Nat)
    (hm : m ≤ n) (hc : c2.length = n) (hL : ∀ j, j < m → c2[j]? = some (L j)) :
    ∃ c3, REPD ((m : Int) - 2) 0 (fun i comp => do
        let a ← vec_get comp (i + 1)
        let b ← vec_get comp i
        vec_set comp i (a.prod b)) c2 = .ok c3 ∧
      c3.length = n ∧
      (∀ j, j < m →
        c3[j]? = some ((List.range (m - j)).map (fun i => L (m - 1 - i))).prod) ∧
      ∀ j, m ≤ j → c3[j]? = c2[j]? := by
  obtain ⟨c3, hrun, hlen, hP⟩ := loop_down_total
    (fun i comp => do
        let a ← vec_get comp (i + 1)
        let b ← vec_get comp i
        vec_set comp i (a.prod b))
    (fun k (s : List Homography) => s.length = n ∧
      ∀ j : Nat, (k < (j : Int) → j < m →
          s[j]? = some ((List.range (m - j)).map (fun i => L (m - 1 - i))).prod) ∧
        ((j : Int) ≤ k → s[j]? = c2[j]?) ∧ (m ≤ j → s[j]? = c2[j]?))
    ((m : Int) - 2 - 0 + 1).toNat ((m : Int) - 2) c2
    ⟨hc, fun j => ⟨fun h1 h2 => by
        have : j = m - 1 := by omega
        subst this
        rw [hL _ h2]
        have e : m - (m - 1) = 1 := by omega
        simp [e, List.range_succ], fun _ => rfl, fun _ => rfl⟩⟩
    (by
      intro k s hk0 hk1 ⟨hlen, hP⟩
      lift k to ℕ using (by omega)
      have hk : k + 1 < m := by omega
      have ha : s[k + 1]? = some ((List.range (m - (k + 1))).map
          (fun i => L (m - 1 - i))).prod := (hP (k + 1)).1 (by push_cast; omega) hk
      have hb : s[k]? = some (L k) := by
        rw [(hP k).2.1 le_rfl]; exact hL k (by omega)
      refine ⟨s.set k ((((List.range (m - (k + 1))).map
          (fun i => L (m - 1 - i))).prod).prod (L k)), ?_, by simp [hlen], ?_⟩
      · show (vec_get s ((k : Int) + 1) >>= fun a => vec_get s (k : Int) >>= fun b =>
          vec_set s (k : Int) (a.prod b)) = _
        have e : (k : Int) + 1 = ((k + 1 : Nat) : Int) := by push_cast; rfl
        rw [e, vec_get_ok s (k + 1) _ ha]
        show (vec_get s (k : Int) >>= fun b => vec_set s (k : Int) (_)) = _
        rw [vec_get_ok s k _ hb]
        exact vec_set_ok s k _ (by omega)
      · intro j
        rw [List.getElem?_set]
        refine ⟨?_, ?_, ?_⟩
        · intro hj1 hj2
          by_cases e' : k = j
          · subst e'
            simp only [if_true, hlen, show k < n by omega]
            rw [left_prod_step L m k (by omega)]; rfl
          · simp only [e', if_false]; exact (hP j).1 (by omega) hj2
        · intro hj
          have e' : k ≠ j := by omega
          simp only [e', if_false]; exact (hP j).2.1 (by omega)
        · intro hj
          have e' : k ≠ j := by omega
          simp only [e', if_false]; exact (hP j).2.2 hj)
  refine ⟨c3, by simpa [REPD] using hrun, hlen, ?_, fun j hj => (hP j).2.2 hj⟩
  intro j hj
  exact (hP j).1 (by omega) hj


theorem ok_inj {α : Type} (a b : α) (x : Run α) (h1 : x = .ok a) (h2 : x = .ok b) : a = b := by
  rw [h1] at h2
  simpa using h2

theorem accumulate_spec (fit : WarpedFit) (n m : Nat) (bf : ℚ)
    (bestmat comp out : List Homography) (hm : m ≤ n) (hc : comp.length = n)
    (hb : bestmat.length = n - m - 1)
    (h : accumulate fit n (m : Int) bf bestmat comp = .ok out) :
    out.length = n ∧
    (∀ j, j < m → fit bf (j + 1) j = some ((fit bf (j + 1) j).getD Homography.I)) ∧
    (∀ j, j < m → out[j]? = some ((List.range (m - j)).map
        (fun i => (fit bf (m - 1 - i + 1) (m - 1 - i)).getD Homography.I)).prod) ∧
    out[m]? = comp[m]? ∧
    ∀ j, m < j → j < n → out[j]? = bestmat[j - m - 1]? := by
  unfold accumulate at h
  obtain ⟨c1, h1, h⟩ := bind_ok_inv _ _ _ h
  obtain ⟨c2, h2, h3⟩ := bind_ok_inv _ _ _ h
  obtain ⟨c1', h1', hl1, hA1, hA2⟩ := fill_right_spec bestmat comp n m hc hb
  have e1 : c1 = c1' := ok_inj _ _ _ h1 h1'
  subst e1
  obtain ⟨hl2, hB1, hB2⟩ := fit_left_spec fit bf c1 c2 n m hl1 h2
  have hfit : ∀ j, j < m → fit bf (j + 1) j = some ((fit bf (j + 1) j).getD Homography.I) := by
    intro j hj
    rw [hB1 j hj, List.getElem?_eq_getElem (by omega)]
    rfl
  have hL : ∀ j, j < m → c2[j]? = some ((fit bf (j + 1) j).getD Homography.I) := by
    intro j hj
    rw [← hB1 j hj]; exact hfit j hj
  obtain ⟨c3, h3', hl3, hC1, hC2⟩ := chain_left_spec
    (fun j => (fit bf (j + 1) j).getD Homography.I) c2 n m hm hl2 hL
  have e3 : out = c3 := ok_inj _ _ _ h3 h3'
  subst e3
  refine ⟨hl3, hfit, hC1, ?_, ?_⟩
  · rw [hC2 m le_rfl, hB2 m le_rfl, hA1 m le_rfl]
  · intro j hj1 hj2
    rw [hC2 j (by omega), hB2 j (by omega), hA2 j hj1 hj2]

theorem right_prod_step (R : Nat → Homography) (c : Nat) :
    ((List.range (c + 1)).map R).prod = ((List.range c).map R).prod * R c := by
  rw [List.range_succ, List.map_append, List.prod_append]
  simp

/-- C6. When `calc_matrix_pano` succeeds on `n ≥ 1` images, `identity_idx` is
`mid = ⌊n/2⌋` and `component[mid].homo = I`; with `R j` the fit of the pair
`(j, j+1)` and `L i` the fit of the pair `(i+1, i)`, both on features warped with the
chosen factor, `component[k].homo = R mid · … · R (k-1)` for `k > mid` and
`component[k].homo = L (mid-1) · … · L k` for `k < mid`; hence
`component[k].homo = component[k+1].homo · L k` for `k < mid` and
`component[k].homo = component[k-1].homo · R (k-1)` for `k > mid`. -/
theorem calc_matrix_pano_chain (fit : WarpedFit) (SLOPE_PLAIN : ℚ) (n : Nat)
    (component : List Homography) (res : PanoResult) (hn : 1 ≤ n)
    (hlen : component.length = n)
    (h : (calc_matrix_pano fit SLOPE_PLAIN n component).2 = .ok res) :
    res.bundle.identity_idx = ((n / 2 : Nat) : Int) ∧
    res.bundle.component.length = n ∧
    res.bundle.component[n / 2]? = some Homography.I ∧
    ∃ R L : Nat → Homography,
      (∀ j, n / 2 ≤ j → j + 1 < n → fit res.bestfactor j (j + 1) = some (R j)) ∧
      (∀ i, i < n / 2 → fit res.bestfactor (i + 1) i = some (L i)) ∧
      (∀ k, n / 2 < k → k < n → res.bundle.component[k]?
        = some ((List.range (k - n / 2)).map (fun j => R (n / 2 + j))).prod) ∧
      (∀ k, k < n / 2 → res.bundle.component[k]?
        = some ((List.range (n / 2 - k)).map (fun j => L (n / 2 - 1 - j))).prod) ∧
      (∀ k, k < n / 2 → ∃ a b, res.bundle.component[k]? = some a ∧
        res.bundle.component[k + 1]? = some b ∧ a = b.prod (L k)) ∧
      (∀ k, n / 2 < k → k < n → ∃ a b, res.bundle.component[k]? = some a ∧
        res.bundle.component[k - 1]? = some b ∧ a = b.prod (R (k - 1))) := by
  obtain ⟨_, comp, s, hfill, hf, _, hacc, hid, hb, hm⟩ :=
    calc_matrix_pano_ok fit SLOPE_PLAIN n component res h
  have hmid : (n : Int) / 2 = ((n / 2 : Nat) : Int) := by omega
  rw [hmid] at hf hacc hid
  have hcomp : comp = List.replicate n Homography.I := by
    have := REP_fill Homography.I component
    rw [hlen] at this
    exact ok_inj _ _ _ hfill this
  -- the chain that the search left in `bestmat`
  have hbest : s.mat.length = n - n / 2 - 1 ∧
      (∀ j, n / 2 ≤ j → j + 1 < n → fit s.bestfactor j (j + 1)
        = some ((fit s.bestfactor j (j + 1)).getD Homography.I)) ∧
      ∀ j, j < n - n / 2 - 1 → s.mat[j]? = some ((List.range (j + 1)).map
        (fun i => (fit s.bestfactor (n / 2 + i) (n / 2 + i + 1)).getD Homography.I)).prod := by
    by_cases hs : (n : Int) - ((n / 2 : Nat) : Int) > 1
    · obtain ⟨⟨_, hch, _⟩, _⟩ := factor_search_best fit SLOPE_PLAIN n _ s hs hf
      exact chain_right_spec fit n (n / 2) s.bestfactor s.mat (by omega) hch
    · rw [factor_search_skip fit SLOPE_PLAIN n _ hs] at hf
      simp only [Except.ok.injEq] at hf
      subst hf
      exact ⟨by simp; omega, fun j h1 h2 => by omega, fun j hj => by omega⟩
  obtain ⟨hbl, hR, hbm⟩ := hbest
  obtain ⟨hol, hL, hleft, hmidv, hright⟩ := accumulate_spec fit n (n / 2) s.bestfactor s.mat comp
    res.bundle.component (by omega) (by rw [hcomp]; simp) hbl hacc
  have hRk : ∀ k, n / 2 < k → k < n → res.bundle.component[k]?
      = some ((List.range (k - n / 2)).map
        (fun j => (fit s.bestfactor (n / 2 + j) (n / 2 + j + 1)).getD Homography.I)).prod := by
    intro k hk1 hk2
    rw [hright k hk1 hk2, hbm (k - n / 2 - 1) (by omega)]
    have e : k - n / 2 - 1 + 1 = k - n / 2 := by omega
    rw [e]
  have hMid : res.bundle.component[n / 2]? = some Homography.I := by
    rw [hmidv, hcomp, List.getElem?_replicate]
    simp; omega
  rw [hb]
  refine ⟨hid, hol, hMid, fun j => (fit s.bestfactor j (j + 1)).getD Homography.I,
    fun i => (fit s.bestfactor (i + 1) i).getD Homography.I, hR, hL, hRk, hleft, ?_, ?_⟩
  · intro k hk
    refine ⟨_, ((List.range (n / 2 - (k + 1))).map
      (fun j => (fit s.bestfactor (n / 2 - 1 - j + 1) (n / 2 - 1 - j)).getD Homography.I)).prod,
      hleft k hk, ?_, ?_⟩
    · by_cases hk' : k + 1 < n / 2
      · exact hleft (k + 1) hk'
      · have e : k + 1 = n / 2 := by omega
        rw [e, hMid]
        simp
        rfl
    · exact left_prod_step (fun i => (fit s.bestfactor (i + 1) i).getD Homography.I)
        (n / 2) k (by omega)
  · intro k hk1 hk2
    refine ⟨_, ((List.range (k - 1 - n / 2)).map
      (fun j => (fit s.bestfactor (n / 2 + j) (n / 2 + j + 1)).getD Homography.I)).prod,
      hRk k hk1 hk2, ?_, ?_⟩
    · by_cases hk' : n / 2 < k - 1
      · exact hRk (k - 1) hk' (by omega)
      · have e : k - 1 = n / 2 := by omega
        rw [e, hMid]
        simp
        rfl
    · have e : k - n / 2 = (k - 1 - n / 2) + 1 := by omega
      have e2 : n / 2 + (k - 1 - n / 2) = k - 1 := by omega
      rw [e, right_prod_step, e2]
      rfl

/-! ## A level sweep of three images -/

theorem level_chain (g : ℚ) : chain_right level_fit 3 1 g = .ok [translation 10 0] := by
  simp [chain_right, level_fit, vec_set, vec_get, REPL, loop_up, bind, Except.bind]

theorem level_update (g : ℚ) :
    update_h_factor level_fit 3 1 g { minslope := FLT_MAX, bestfactor := 1, mat := [] }
      = .ok (0, { minslope := 0, bestfactor := g, mat := [translation 10 0] }) := by
  have h : slope_of [translation 10 0] = .ok 0 := by
    simp [slope_of, vec_get, translation, Homography.trans2d, Homography.trans_normalize,
      Homography.trans, bind, Except.bind, pure, Except.pure]
  have hmax : (0 : ℚ) < FLT_MAX := by norm_num [FLT_MAX]
  simp [update_h_factor, level_chain, h, update_min, hmax, bind, Except.bind, pure, Except.pure]

theorem level_search :
    factor_search level_fit (1 / 100) 3 1
      = ([1], .ok { minslope := 0, bestfactor := 1, mat := [translation 10 0] }) := by
  simp [factor_search, level_update, refine_factor]

theorem level_sweep_run :
    calc_matrix_pano level_fit (1 / 100) 3 [Homography.I, Homography.I, Homography.I]
      = ([1], .ok level_result) := by
  have hmid : ((3 : Nat) : Int) / 2 = 1 := by decide
  have hfill : REP ((3 : Nat) : Int) (fun i comp => vec_set comp i Homography.I)
      [Homography.I, Homography.I, Homography.I]
      = .ok [Homography.I, Homography.I, Homography.I] := by
    simp [REP, REPL, loop_up, vec_set, bind, Except.bind]
  have hacc : accumulate level_fit 3 1 1 [translation 10 0]
      [Homography.I, Homography.I, Homography.I]
      = .ok [translation (-10) 0, Homography.I, translation 10 0] := by
    simp [accumulate, level_fit, vec_set, vec_get, REPL, REPD, loop_up, loop_down, bind,
      Except.bind]
  have h0 : ¬ ((3 : Nat) = 0) := by decide
  simp only [level_result, calc_matrix_pano, hmid, hfill, level_search, hacc, h0, if_false, bind, Except.bind,
    pure, Except.pure]

/-- C6 on the level sweep of three images. -/
theorem calc_matrix_pano_chain_witness :
    1 ≤ 3 ∧
    [Homography.I, Homography.I, Homography.I].length = 3 ∧
    (calc_matrix_pano level_fit (1 / 100) 3
      [Homography.I, Homography.I, Homography.I]).2 = .ok level_result ∧
    level_result.bundle.identity_idx = ((3 / 2 : Nat) : Int) ∧
    level_result.bundle.component.length = 3 ∧
    level_result.bundle.component[3 / 2]? = some Homography.I :=
  ⟨by decide, rfl, by rw [level_sweep_run],
    (calc_matrix_pano_chain level_fit (1 / 100) 3 [Homography.I, Homography.I, Homography.I]
      level_result (by decide) rfl (by rw [level_sweep_run])).1,
    (calc_matrix_pano_chain level_fit (1 / 100) 3 [Homography.I, Homography.I, Homography.I]
      level_result (by decide) rfl (by rw [level_sweep_run])).2.1,
    (calc_matrix_pano_chain level_fit (1 / 100) 3 [Homography.I, Homography.I, Homography.I]
      level_result (by decide) rfl (by rw [level_sweep_run])).2.2.1⟩

end Stitcher
